import Mathlib

/-!
# orderer/common/broadcast/broadcast.go

A shallow embedding of the broadcast handler: `NewHandlerImpl`, `Handle`,
`newBroadcaster`, the receive loop `queueEnvelopes` and the drain loop
`drainQueue`, as a transition system over explicit state.

The two goroutines of one `Handle` call are interleaved by a scheduler, so the
session is a step function on events; the collaborators (the gRPC stream
`srv`, the `Target`) are the environment, and the values they return are
carried by the events.  Go channels are modelled with their buffer, capacity
and closed flag; a receiver blocked in `select` is a control point of its own,
because a non-blocking send hands its value directly to a blocked receiver.

One iteration of the receive loop is one step: the non-blocking send is its
only access to state shared with the drainer, so a drainer step that falls
between its `Recv`, its queue operation and its `Send` can be moved before or
after the iteration.  `exitChan` is never closed in this file; closing it is
an event of the environment.
-/

namespace Broadcast

/-! ## Data -/

/-- A message (`*cb.Envelope`); the handler never looks inside it. -/
abbrev Envelope := Nat

/-- An `error` value returned by the stream. -/
abbrev Err := Nat

/-- Result of `filters.Apply` (`broadcastfilter.Action`).  The type is an
integer enumeration declared outside this file; `Unknown` stands for every
value that is none of the four named ones (the `default:` branch). -/
inductive Action
  | Accept
  | Reconfigure
  | Reject
  | Forward
  | Unknown
  deriving DecidableEq

/-- Status of a `BroadcastResponse` (`cb.Status_*`). -/
inductive Status
  | SUCCESS
  | BAD_REQUEST
  | SERVICE_UNAVAILABLE
  deriving DecidableEq

/-- A Go channel: buffered values, capacity, closed flag. -/
structure Chan (α : Type) where
  buf : List α
  cap : Nat
  closed : Bool
  deriving DecidableEq

/-- The builtin `make(chan T, size)`.  It panics on a negative size and on a
size out of range; `limit` is the largest size the runtime accepts for a
channel of this element type (it depends on the platform: on 64-bit Linux,
for a channel of pointers, `2 ^ 45 - 12`). -/
def make (α : Type) (limit : Nat) (size : Int) : Option (Chan α) :=
  if size < 0 ∨ (limit : Int) < size then none
  else some { buf := [], cap := size.toNat, closed := false }

/-- The struct `handlerImpl`.  `filters` is the first result of
`filters.Apply`; `target` is the environment (see `Event.enqueue`) and
`configManager` is never read. -/
structure handlerImpl where
  queueSize : Int
  filters : Envelope → Action
  exitChan : Chan Unit

/-- `NewHandlerImpl`: the only place where `exitChan` is made. -/
def NewHandlerImpl (queueSize : Int) (filters : Envelope → Action) : handlerImpl :=
  { queueSize := queueSize, filters := filters,
    exitChan := { buf := [], cap := 0, closed := false } }

/-- Control point of the goroutine running `Handle` / `queueEnvelopes`. -/
inductive ReceiverPC
  | receiving
  | returning (err : Err)
  | returned (err : Err)
  | aborted
  deriving DecidableEq

/-- Which `return` of `drainQueue` was taken. -/
inductive Exit
  | refused (msg : Envelope)
  | queueClosed
  | exitChan
  deriving DecidableEq

/-- Control point of the goroutine running `drainQueue`. -/
inductive DrainerPC
  | selecting
  | parked
  | holding (msg : Envelope)
  | returned (why : Exit)
  deriving DecidableEq

/-- State of one `Handle` call: the `broadcaster` (its `queue`; the pointer
`bs` is passed to every operation), the control points of its two goroutines,
and logs of what each goroutine has done so far.

* `receiving`: in the loop of `queueEnvelopes`; `returning err`: the loop has
  returned `err` and the deferred `close(b.queue)` has not run yet;
  `returned err`: `Handle` has returned `err`; `aborted`: `logger.Fatalf` or a
  runtime panic ended the process.
* `selecting`: at the `select` of `drainQueue`; `parked`: blocked in that
  `select`; `holding msg`: `msg, ok := <-b.queue` gave `ok = true` and
  `Target.Enqueue(msg)` has not returned; `returned why`: `drainQueue` is over.
* `recvCalls`: calls of `srv.Recv`; `received`: the messages they returned;
  `sends`: statuses passed to `srv.Send`; `acks`: those whose `Send` returned
  `nil`; `inserted`: messages for which `case b.queue <- msg` was taken;
  `dequeued`: messages `drainQueue` received from the queue; `sunk`: messages
  passed to `Target.Enqueue`. -/
structure broadcaster where
  queue : Chan Envelope
  receiver : ReceiverPC
  drainer : DrainerPC
  recvCalls : Nat
  received : List Envelope
  sends : List Status
  acks : List Status
  inserted : List Envelope
  dequeued : List Envelope
  sunk : List Envelope
  deriving DecidableEq

/-! ## Operations -/

/-- `newBroadcaster`: a fresh queue of capacity `bs.queueSize`; `limit` is the
channel size limit of the runtime, see `make`. -/
def newBroadcaster (limit : Nat) (bs : handlerImpl) : Option broadcaster :=
  (make Envelope limit bs.queueSize).map fun q =>
    { queue := q, receiver := .receiving, drainer := .selecting, recvCalls := 0,
      received := [], sends := [], acks := [], inserted := [], dequeued := [], sunk := [] }

/-- The start of `Handle`: `newBroadcaster`, the deferred close is registered,
`go b.drainQueue()` puts the drainer at its `select`, and the caller enters
`queueEnvelopes`. -/
def Handle (limit : Nat) (bs : handlerImpl) : Option broadcaster :=
  newBroadcaster limit bs

/-- `err = srv.Send(&ab.BroadcastResponse{Status: st})` followed by the test
`if err != nil { return err }`. -/
def srvSend (b : broadcaster) (st : Status) (sendErr : Option Err) : broadcaster :=
  match sendErr with
  | none => { b with sends := b.sends ++ [st], acks := b.acks ++ [st] }
  | some e => { b with sends := b.sends ++ [st], receiver := .returning e }

/-- One iteration of the loop of `queueEnvelopes`.  `r` is what `srv.Recv()`
returns and `sendErr` what the `srv.Send` of this iteration returns.

The non-blocking send `select { case b.queue <- msg: ... default: ... }`
panics on a closed channel, hands `msg` to a receiver blocked on the channel,
else appends it to the buffer when there is room, else takes `default`. -/
def queueEnvelopes (bs : handlerImpl) (b : broadcaster) (r : Except Err Envelope)
    (sendErr : Option Err) : Option broadcaster :=
  match b.receiver with
  | .receiving =>
    match r with
    | .error e => some { b with recvCalls := b.recvCalls + 1, receiver := .returning e }
    | .ok msg =>
      let b1 := { b with recvCalls := b.recvCalls + 1, received := b.received ++ [msg] }
      match bs.filters msg with
      | .Reconfigure | .Accept =>
        if b1.queue.closed then some { b1 with receiver := .aborted }
        else if b1.drainer = .parked then
          some (srvSend { b1 with drainer := .holding msg, inserted := b1.inserted ++ [msg],
                                  dequeued := b1.dequeued ++ [msg] } .SUCCESS sendErr)
        else if b1.queue.buf.length < b1.queue.cap then
          some (srvSend { b1 with queue := { b1.queue with buf := b1.queue.buf ++ [msg] },
                                  inserted := b1.inserted ++ [msg] } .SUCCESS sendErr)
        else some (srvSend b1 .SERVICE_UNAVAILABLE sendErr)
      | .Forward | .Reject => some (srvSend b1 .BAD_REQUEST sendErr)
      | .Unknown => some { b1 with receiver := .aborted }
  | _ => none

/-- The deferred `close(b.queue)` of `Handle`, after which `Handle` returns
the error of `queueEnvelopes`.  Closing wakes a receiver blocked on the
channel with `ok = false`. -/
def closeQueue (b : broadcaster) : Option broadcaster :=
  match b.receiver with
  | .returning e =>
    some { b with queue := { b.queue with closed := true }, receiver := .returned e,
                  drainer := if b.drainer = .parked then .returned .queueClosed else b.drainer }
  | _ => none

/-- The case of the `select` in `drainQueue` that the runtime picks; `block`
is the drainer going to sleep because no case is ready. -/
inductive Branch
  | queue
  | exit
  | block
  deriving DecidableEq

/-- The `select` of `drainQueue`.  A case can be picked only when it is ready
(when several are, Go picks any of them): the queue case when the buffer holds
a message (`ok = true`) or the queue is closed and empty (`ok = false`,
`return`); the exit case when `exitChan` is closed. -/
def drainQueue (bs : handlerImpl) (b : broadcaster) (br : Branch) : Option broadcaster :=
  match b.drainer with
  | .selecting =>
    match br with
    | .queue =>
      match b.queue.buf with
      | msg :: rest =>
        some { b with queue := { b.queue with buf := rest }, dequeued := b.dequeued ++ [msg],
                      drainer := .holding msg }
      | [] => if b.queue.closed then some { b with drainer := .returned .queueClosed } else none
    | .exit => if bs.exitChan.closed then some { b with drainer := .returned .exitChan } else none
    | .block =>
      if b.queue.buf = [] ∧ b.queue.closed = false ∧ bs.exitChan.closed = false
      then some { b with drainer := .parked } else none
  | _ => none

/-- The call `b.bs.target.Enqueue(msg)` in `drainQueue` returning `ok`, and
the test `if !ok { return }`. -/
def targetEnqueue (b : broadcaster) (ok : Bool) : Option broadcaster :=
  match b.drainer with
  | .holding msg =>
    some { b with sunk := b.sunk ++ [msg],
                  drainer := if ok then .selecting else .returned (.refused msg) }
  | _ => none

/-- What closing `exitChan` does to a session: a drainer blocked in its
`select` is woken on the exit case and returns. -/
def exitFired (b : broadcaster) : broadcaster :=
  if b.drainer = .parked then { b with drainer := .returned .exitChan } else b

/-- What can happen next in one session. -/
inductive Event
  | recv (r : Except Err Envelope) (sendErr : Option Err)
  | close
  | drain (br : Branch)
  | enqueue (ok : Bool)

/-- One step of a session.  Nothing runs once the process has been aborted. -/
def broadcaster.step (bs : handlerImpl) (b : broadcaster) (e : Event) : Option broadcaster :=
  if b.receiver = .aborted then none
  else
    match e with
    | .recv r sendErr => queueEnvelopes bs b r sendErr
    | .close => closeQueue b
    | .drain br => drainQueue bs b br
    | .enqueue ok => targetEnqueue b ok

/-- A handler and the sessions (`Handle` calls) started on it so far;
`chanLimit` is the channel size limit of the runtime the process runs on. -/
structure World where
  chanLimit : Nat
  bs : handlerImpl
  sessions : List broadcaster

/-- What can happen next to a handler: a new `Handle` call, `close(exitChan)`
by the owner of the handler, or a step of the session with index `i`. -/
inductive WEvent
  | handle
  | closeExit
  | sess (i : Nat) (e : Event)

/-- True when some session has aborted the process. -/
def World.dead (w : World) : Bool :=
  w.sessions.any fun b => decide (b.receiver = .aborted)

/-- One step of the handler and its sessions. -/
def World.step (w : World) (e : WEvent) : Option World :=
  if w.dead then none
  else
    match e with
    | .handle =>
      (Handle w.chanLimit w.bs).map fun b => { w with sessions := w.sessions ++ [b] }
    | .closeExit =>
      if w.bs.exitChan.closed then none
      else some { w with bs := { w.bs with exitChan := { w.bs.exitChan with closed := true } },
                         sessions := w.sessions.map exitFired }
    | .sess i e =>
      match w.sessions[i]? with
      | none => none
      | some b => (b.step w.bs e).map fun b1 => { w with sessions := w.sessions.set i b1 }

/-- A run: the events of a schedule, one after the other. -/
def World.run (w : World) : List WEvent → Option World
  | [] => some w
  | e :: es => (w.step e).bind fun w1 => w1.run es

/-- The handler right after `NewHandlerImpl`, no session started. -/
def World.new (limit : Nat) (queueSize : Int) (filters : Envelope → Action) : World :=
  { chanLimit := limit, bs := NewHandlerImpl queueSize filters, sessions := [] }

/-! ## Vocabulary of the properties -/

/-- The action queues the message (`Accept`, `Reconfigure`). -/
def Action.queues : Action → Bool
  | .Accept | .Reconfigure => true
  | _ => false

/-- The action refuses the message (`Reject`, `Forward`). -/
def Action.refuses : Action → Bool
  | .Reject | .Forward => true
  | _ => false

/-- The status `st` is one that the dispatch of `queueEnvelopes` produces for
the message `m`: `SUCCESS` or `SERVICE_UNAVAILABLE` when `m` is classified
`Accept` or `Reconfigure`, `BAD_REQUEST` when it is classified `Reject` or
`Forward`. -/
def AckFor (f : Envelope → Action) (m : Envelope) (st : Status) : Prop :=
  ((f m).queues = true ∧ (st = .SUCCESS ∨ st = .SERVICE_UNAVAILABLE)) ∨
  ((f m).refuses = true ∧ st = .BAD_REQUEST)

/-- The messages among `ms` whose status, at the same position of `sts`, is
`SUCCESS`. -/
def successAcked : List Envelope → List Status → List Envelope
  | m :: ms, st :: sts =>
    if st = .SUCCESS then m :: successAcked ms sts else successAcked ms sts
  | _, _ => []

/-- The message a drainer holds between its dequeue and `Target.Enqueue`. -/
def DrainerPC.held : DrainerPC → List Envelope
  | .holding m => [m]
  | _ => []

/-- The classifier used in the scenarios: by the remainder modulo 4, `Accept`
(0), `Reconfigure` (1), `Reject` (2), `Forward` (3). -/
def demoFilter (m : Envelope) : Action :=
  if m % 4 = 0 then .Accept else if m % 4 = 1 then .Reconfigure
  else if m % 4 = 2 then .Reject else .Forward

/-- The facts about one session that every step keeps. -/
structure Inv (f : Envelope → Action) (b : broadcaster) : Prop where
  parked_empty : b.drainer = .parked → b.queue.buf = [] ∧ b.queue.closed = false
  fifo : b.inserted = b.dequeued ++ b.queue.buf
  held : b.dequeued = b.sunk ++ b.drainer.held
  bounded : b.queue.buf.length ≤ b.queue.cap
  closed_iff : b.queue.closed = true ↔ ∃ e, b.receiver = .returned e
  classified : ∀ m ∈ b.inserted, (f m).queues = true
  acked : b.receiver ≠ .aborted → List.Forall₂ (AckFor f) b.received b.sends
  successes : b.receiver ≠ .aborted → b.inserted = successAcked b.received b.sends
  io_receiving : b.receiver = .receiving → b.sends = b.acks ∧ b.recvCalls = b.received.length
  io_failed : ∀ e, (b.receiver = .returning e ∨ b.receiver = .returned e) →
    (b.sends = b.acks ∧ b.recvCalls = b.received.length + 1) ∨
    (∃ st, b.sends = b.acks ++ [st] ∧ b.recvCalls = b.received.length)
  refused_last : ∀ m, b.drainer = .returned (.refused m) → b.sunk.getLast? = some m
  closed_exit : b.drainer = .returned .queueClosed → b.queue.buf = [] ∧ b.queue.closed = true

/-! ## Predicates on sessions, and the schedules of the scenarios -/

/-- The facts that hold in the middle of an iteration of `queueEnvelopes`:
`msg` has been received and dispatched, `st` is about to be sent. -/
structure Mid (f : Envelope → Action) (b : broadcaster) (msg : Envelope) (st : Status) : Prop where
  parked_empty : b.drainer = .parked → b.queue.buf = [] ∧ b.queue.closed = false
  fifo : b.inserted = b.dequeued ++ b.queue.buf
  held : b.dequeued = b.sunk ++ b.drainer.held
  bounded : b.queue.buf.length ≤ b.queue.cap
  is_open : b.queue.closed = false
  classified : ∀ m ∈ b.inserted, (f m).queues = true
  receiving : b.receiver = .receiving
  ack : AckFor f msg st
  history : ∃ rcv, b.received = rcv ++ [msg] ∧ List.Forall₂ (AckFor f) rcv b.sends ∧
    b.inserted = successAcked rcv b.sends ++ (if st = .SUCCESS then [msg] else [])
  io : b.sends = b.acks ∧ b.recvCalls = b.received.length
  refused_last : ∀ m, b.drainer = .returned (.refused m) → b.sunk.getLast? = some m
  closed_exit : b.drainer = .returned .queueClosed → b.queue.buf = [] ∧ b.queue.closed = true

/-- The state after `srv.Recv()` has returned `msg`. -/
def afterRecv (b : broadcaster) (msg : Envelope) : broadcaster :=
  { b with recvCalls := b.recvCalls + 1, received := b.received ++ [msg] }

/-- The messages of `ms` that the dispatch queues. -/
def queued (f : Envelope → Action) (ms : List Envelope) : List Envelope :=
  ms.filter fun m => (f m).queues

/-- The status of the message at position `j` of `ms`, a queued one, when
nothing is dequeued: `SUCCESS` while fewer than `cap` queued messages came
before it, `SERVICE_UNAVAILABLE` from then on. -/
def expectedAck (f : Envelope → Action) (cap : Nat) (ms : List Envelope) (j : Nat) : Status :=
  if (queued f (ms.take j)).length < cap then .SUCCESS else .SERVICE_UNAVAILABLE

/-- What the logs look like while the drainer has dequeued nothing. -/
structure Quiet (f : Envelope → Action) (b : broadcaster) : Prop where
  filled : b.inserted = (queued f b.received).take b.queue.cap
  statuses : ∀ j m st, b.received[j]? = some m → b.sends[j]? = some st →
    (f m).queues = true → st = expectedAck f b.queue.cap b.received j

/-- The logs are those of `Quiet` as long as nothing has been dequeued. -/
def QuietIf (f : Envelope → Action) (b : broadcaster) : Prop :=
  b.dequeued = [] → b.receiver ≠ .aborted → Quiet f b

/-- The step from `b` to `b1` did not touch what the receiver owns. -/
structure ReceiverSame (b b1 : broadcaster) : Prop where
  receiver : b1.receiver = b.receiver
  recvCalls : b1.recvCalls = b.recvCalls
  received : b1.received = b.received
  sends : b1.sends = b.sends
  acks : b1.acks = b.acks
  inserted : b1.inserted = b.inserted
  cap : b1.queue.cap = b.queue.cap
  closed : b1.queue.closed = b.queue.closed

/-- A `SERVICE_UNAVAILABLE` at position `j` was sent with `cap` messages in the
buffer, so at least `cap` messages had been received before. -/
def Overflow (b : broadcaster) : Prop :=
  ∀ j, b.sends[j]? = some .SERVICE_UNAVAILABLE → b.queue.cap ≤ j

/-- Everything that holds of a session of the handler `bs` in a reachable
state. -/
structure Good (bs : handlerImpl) (b : broadcaster) : Prop where
  inv : Inv bs.filters b
  awake : bs.exitChan.closed = true → b.drainer ≠ .parked
  exit_seen : b.drainer = .returned .exitChan → bs.exitChan.closed = true
  capacity : (b.queue.cap : Int) = bs.queueSize
  alive : (∀ m, bs.filters m ≠ .Unknown) → b.receiver ≠ .aborted
  quiet : QuietIf bs.filters b
  overflow : Overflow b

/-- Every session of the world is `Good`. -/
def World.AllGood (w : World) : Prop :=
  ∀ b ∈ w.sessions, Good w.bs b

/-- Once `queueEnvelopes` has returned `e`, the session keeps that result and
the stream is not used again. -/
def StaysFailed (b b1 : broadcaster) : Prop :=
  ∀ e, (b.receiver = .returning e ∨ b.receiver = .returned e) →
    (b1.receiver = .returning e ∨ b1.receiver = .returned e) ∧ b1.recvCalls = b.recvCalls ∧
      b1.received = b.received ∧ b1.sends = b.sends ∧ b1.acks = b.acks

/-- Once `drainQueue` has returned, nothing more is dequeued or passed to the
target. -/
def StaysOver (b b1 : broadcaster) : Prop :=
  ∀ why, b.drainer = .returned why →
    b1.drainer = .returned why ∧ b1.dequeued = b.dequeued ∧ b1.sunk = b.sunk

/-- A session that never ran, the value of `World.session` out of range. -/
def blank : broadcaster :=
  { queue := { buf := [], cap := 0, closed := false }, receiver := .receiving,
    drainer := .selecting, recvCalls := 0, received := [], sends := [], acks := [],
    inserted := [], dequeued := [], sunk := [] }

/-- The channel size limit used in the scenarios: the one of the 64-bit Linux
runtime for a channel of pointers. -/
def demoLimit : Nat := 2 ^ 45 - 12

/-- The world a schedule leads to from a new handler. -/
def World.after (lim : Nat) (q : Int) (f : Envelope → Action) (es : List WEvent) : World :=
  ((World.new lim q f).run es).getD (World.new lim q f)

/-- The session with index `i`. -/
def World.session (w : World) (i : Nat) : broadcaster :=
  (w.sessions[i]?).getD blank

/-- Capacity 1: an `Accept` is queued and dequeued, then a `Reject` and an
`Accept` arrive. -/
def scheduleC1 : List WEvent :=
  [.handle, .sess 0 (.recv (.ok 0) none), .sess 0 (.drain .queue),
   .sess 0 (.recv (.ok 2) none), .sess 0 (.recv (.ok 4) none)]

/-- Capacity 1, nothing dequeued: `Accept`, `Accept`, `Reject`. -/
def scheduleC2 : List WEvent :=
  [.handle, .sess 0 (.recv (.ok 0) none), .sess 0 (.recv (.ok 4) none),
   .sess 0 (.recv (.ok 2) none)]

/-- Capacity 2: an `Accept` is queued, then a `Forward` arrives. -/
def scheduleC3 : List WEvent :=
  [.handle, .sess 0 (.recv (.ok 0) none), .sess 0 (.recv (.ok 3) none)]

/-- Two messages are acknowledged, then the third `Recv` fails with error 7
and `Handle` returns. -/
def scheduleC4 : List WEvent :=
  [.handle, .sess 0 (.recv (.ok 0) none), .sess 0 (.recv (.ok 2) none),
   .sess 0 (.recv (.error 7) none), .sess 0 .close]

/-- Capacity 10, five `Accept`, a target that always returns `true`; the
drainer runs between the receives. -/
def scheduleC5 : List WEvent :=
  [.handle, .sess 0 (.recv (.ok 0) none), .sess 0 (.recv (.ok 4) none),
   .sess 0 (.drain .queue), .sess 0 (.recv (.ok 8) none), .sess 0 (.enqueue true),
   .sess 0 (.recv (.ok 12) none), .sess 0 (.drain .queue), .sess 0 (.enqueue true),
   .sess 0 (.recv (.ok 16) none), .sess 0 (.drain .queue), .sess 0 (.enqueue true),
   .sess 0 (.drain .queue), .sess 0 (.enqueue true), .sess 0 (.drain .queue),
   .sess 0 (.enqueue true)]

/-- Capacity 2: two `Accept` are queued, `Recv` fails, the queue is closed with
both messages in it, and the drainer then takes them out and returns. -/
def scheduleC6 : List WEvent :=
  [.handle, .sess 0 (.recv (.ok 0) none), .sess 0 (.recv (.ok 4) none),
   .sess 0 (.recv (.error 9) none), .sess 0 .close, .sess 0 (.drain .queue),
   .sess 0 (.enqueue true), .sess 0 (.drain .queue), .sess 0 (.enqueue true),
   .sess 0 (.drain .queue)]

/-- Capacity 2: message 0 is acknowledged, message 4 is queued but the `Send`
of its `SUCCESS` fails with error 5; the queue is closed and the drainer,
whose target accepts, empties it and returns. -/
def failedSendC6 : List WEvent :=
  [.handle, .sess 0 (.recv (.ok 0) none), .sess 0 (.recv (.ok 4) (some 5)), .sess 0 .close,
   .sess 0 (.drain .queue), .sess 0 (.enqueue true), .sess 0 (.drain .queue),
   .sess 0 (.enqueue true), .sess 0 (.drain .queue)]

/-- Capacity 2: the target refuses message 0. -/
def scheduleC7 : List WEvent :=
  [.handle, .sess 0 (.recv (.ok 0) none), .sess 0 (.drain .queue), .sess 0 (.enqueue false)]

/-- After the refusal of `scheduleC7` the receiver inserts two more messages. -/
def laterC7 : List WEvent :=
  [.sess 0 (.recv (.ok 4) none), .sess 0 (.recv (.ok 8) none)]

/-- After the refusal of `scheduleC7`: an `Accept`, a `Reject`, a
`Reconfigure` that fills the queue of capacity 2. -/
def scheduleC8 : List WEvent :=
  scheduleC7 ++ [.sess 0 (.recv (.ok 4) none), .sess 0 (.recv (.ok 2) none),
    .sess 0 (.recv (.ok 5) none)]

/-- Capacity 1: message 0 is in the queue when `exitChan` is closed. -/
def scheduleC9 : List WEvent :=
  [.handle, .sess 0 (.recv (.ok 0) none), .closeExit]

/-- After `scheduleC9` the `select` takes the queue case and the message is
passed to the target. -/
def laterC9 : List WEvent :=
  [.sess 0 (.drain .queue), .sess 0 (.enqueue true)]

/-- Two sessions of one handler, both drainers blocked in their `select`. -/
def scheduleC10 : List WEvent :=
  [.handle, .handle, .sess 0 (.drain .block), .sess 1 (.drain .block)]

/-- The schedule in which the drainer of session `i` empties a queue of `n`
messages, the target accepting each, and then finds the queue empty. -/
def drainSchedule (i : Nat) : Nat → List WEvent
  | 0 => [.sess i (.drain .queue)]
  | n + 1 => .sess i (.drain .queue) :: .sess i (.enqueue true) :: drainSchedule i n

/-! ## Lemmas on lists -/

theorem successAcked_snoc (ms : List Envelope) (sts : List Status) (m : Envelope) (st : Status)
    (h : ms.length = sts.length) :
    successAcked (ms ++ [m]) (sts ++ [st]) =
      successAcked ms sts ++ (if st = .SUCCESS then [m] else []) := by
  induction ms generalizing sts with
  | nil =>
    cases sts with
    | nil => by_cases hs : st = .SUCCESS <;> simp [successAcked, hs]
    | cons a l => simp at h
  | cons x xs ih =>
    cases sts with
    | nil => simp at h
    | cons a l =>
      have hl : xs.length = l.length := by simpa using h
      by_cases ha : a = .SUCCESS <;> simp [successAcked, ha, ih l hl]

theorem forall₂_snoc {α β : Type} {R : α → β → Prop} {as : List α} {bs : List β} {a : α} {b : β}
    (h : List.Forall₂ R as bs) (hab : R a b) : List.Forall₂ R (as ++ [a]) (bs ++ [b]) :=
  List.rel_append h (List.Forall₂.cons hab List.Forall₂.nil)

/-! ## The invariant is kept -/

theorem Handle_inv (lim : Nat) (bs : handlerImpl) (b : broadcaster)
    (h : Handle lim bs = some b) :
    Inv bs.filters b := by
  unfold Handle newBroadcaster make at h
  split at h
  · simp at h
  · simp at h
    subst h
    constructor <;> simp [DrainerPC.held, successAcked]

theorem ackFor_queues {f : Envelope → Action} {m : Envelope} (h : (f m).queues = true) :
    AckFor f m .SUCCESS ∧ AckFor f m .SERVICE_UNAVAILABLE := by
  simp [AckFor, h]

theorem ackFor_refuses {f : Envelope → Action} {m : Envelope} (h : (f m).refuses = true) :
    AckFor f m .BAD_REQUEST := by
  simp [AckFor, h]

theorem srvSend_inv (f : Envelope → Action) (b : broadcaster) (msg : Envelope) (st : Status)
    (se : Option Err) (h : Mid f b msg st) : Inv f (srvSend b st se) := by
  obtain ⟨h1, h2, h3, h4, h5, h6, h7, h8, ⟨rcv, hr1, hr2, hr3⟩, ⟨h9a, h9b⟩, h11, h12⟩ := h
  have hlen := hr2.length_eq
  cases se with
  | none =>
    simp only [srvSend]
    refine ⟨h1, h2, h3, h4, ?_, h6, ?_, ?_, ?_, ?_, h11, h12⟩
    · simp [h5, h7]
    · intro _; simp only [hr1]; exact forall₂_snoc hr2 h8
    · intro _; simp only [hr1]; rw [successAcked_snoc _ _ _ _ hlen]; exact hr3
    · intro _; simp [h9a, h9b]
    · intro e he; simp [h7] at he
  | some e =>
    simp only [srvSend]
    refine ⟨h1, h2, h3, h4, ?_, h6, ?_, ?_, ?_, ?_, h11, h12⟩
    · simp [h5]
    · intro _; simp only [hr1]; exact forall₂_snoc hr2 h8
    · intro _; simp only [hr1]; rw [successAcked_snoc _ _ _ _ hlen]; exact hr3
    · intro hc; simp at hc
    · intro e1 _; right; exact ⟨st, by simp [h9a], h9b⟩

theorem queueEnvelopes_error (bs : handlerImpl) (b : broadcaster) (e : Err) (se : Option Err)
    (hr : b.receiver = .receiving) :
    queueEnvelopes bs b (.error e) se =
      some { b with recvCalls := b.recvCalls + 1, receiver := .returning e } := by
  simp [queueEnvelopes, hr]

theorem queueEnvelopes_refuses (bs : handlerImpl) (b : broadcaster) (msg : Envelope)
    (se : Option Err) (hr : b.receiver = .receiving) (hf : (bs.filters msg).refuses = true) :
    queueEnvelopes bs b (.ok msg) se = some (srvSend (afterRecv b msg) .BAD_REQUEST se) := by
  unfold queueEnvelopes
  simp only [hr]
  cases hm : bs.filters msg <;> simp [hm, Action.refuses, afterRecv, hr] at hf ⊢

theorem queueEnvelopes_unknown (bs : handlerImpl) (b : broadcaster) (msg : Envelope)
    (se : Option Err) (hr : b.receiver = .receiving) (hf : bs.filters msg = .Unknown) :
    queueEnvelopes bs b (.ok msg) se = some { (afterRecv b msg) with receiver := .aborted } := by
  unfold queueEnvelopes
  simp [hr, hf, afterRecv]

theorem queueEnvelopes_queues (bs : handlerImpl) (b : broadcaster) (msg : Envelope)
    (se : Option Err) (hr : b.receiver = .receiving) (hf : (bs.filters msg).queues = true) :
    queueEnvelopes bs b (.ok msg) se =
      if b.queue.closed = true then some { (afterRecv b msg) with receiver := .aborted }
      else if b.drainer = .parked then
        some (srvSend
          { (afterRecv b msg) with
            drainer := .holding msg
            inserted := b.inserted ++ [msg]
            dequeued := b.dequeued ++ [msg] } .SUCCESS se)
      else if b.queue.buf.length < b.queue.cap then
        some (srvSend
          { (afterRecv b msg) with
            queue := { b.queue with buf := b.queue.buf ++ [msg] }
            inserted := b.inserted ++ [msg] } .SUCCESS se)
      else some (srvSend (afterRecv b msg) .SERVICE_UNAVAILABLE se) := by
  unfold queueEnvelopes
  simp only [hr]
  cases hm : bs.filters msg <;> simp [hm, Action.queues, afterRecv, hr] at hf ⊢

theorem action_cases (a : Action) : a.queues = true ∨ a.refuses = true ∨ a = .Unknown := by
  cases a <;> simp [Action.queues, Action.refuses]

theorem queueEnvelopes_inv (bs : handlerImpl) (b b1 : broadcaster) (r : Except Err Envelope)
    (se : Option Err) (h : queueEnvelopes bs b r se = some b1) (hi : Inv bs.filters b) :
    Inv bs.filters b1 := by
  obtain ⟨h1, h2, h3, h4, h5, h6, h7, h8, h9, h10, h11, h12⟩ := hi
  have hr : b.receiver = .receiving := by
    unfold queueEnvelopes at h
    split at h
    · assumption
    · simp at h
  have h7a := h7 (by simp [hr])
  have hlen := h7a.length_eq
  have h8a := h8 (by simp [hr])
  obtain ⟨h9a, h9b⟩ := h9 hr
  have hopen : b.queue.closed = false := by
    cases hc : b.queue.closed with
    | false => rfl
    | true => obtain ⟨e, he⟩ := h5.mp hc; simp [hr] at he
  cases r with
  | error e =>
    rw [queueEnvelopes_error bs b e se hr] at h
    simp at h; subst h
    refine ⟨h1, h2, h3, h4, ?_, h6, ?_, ?_, ?_, ?_, h11, h12⟩
    · simp [hopen]
    · intro _; exact h7a
    · intro _; exact h8a
    · intro hc; simp at hc
    · intro e1 _; left; exact ⟨h9a, by simp [h9b]⟩
  | ok msg =>
    rcases action_cases (bs.filters msg) with hq | hf | hu
    · rw [queueEnvelopes_queues bs b msg se hr hq] at h
      simp only [hopen, Bool.false_eq_true, if_false] at h
      split at h
      next hp =>
        simp at h; subst h
        apply srvSend_inv _ _ msg
        obtain ⟨hb, _⟩ := h1 hp
        refine ⟨?_, ?_, ?_, ?_, hopen, ?_, hr, (ackFor_queues hq).1, ⟨b.received, rfl, h7a, ?_⟩,
          ⟨h9a, ?_⟩, ?_, ?_⟩
        · simp [afterRecv]
        · simp [afterRecv, h2, hb]
        · simp [afterRecv, DrainerPC.held, h3, hp]
        · simp [afterRecv, h4]
        · intro m hm
          simp only [afterRecv, List.mem_append, List.mem_singleton] at hm
          rcases hm with hm | hm
          · exact h6 m hm
          · rw [hm]; exact hq
        · simp [afterRecv, h8a]
        · simp [afterRecv, h9b]
        · simp [afterRecv]
        · simp [afterRecv]
      next hp =>
        split at h
        next hlt =>
          simp at h; subst h
          apply srvSend_inv _ _ msg
          refine ⟨?_, ?_, ?_, ?_, by simp, ?_, hr, (ackFor_queues hq).1, ⟨b.received, rfl, h7a, ?_⟩,
            ⟨h9a, ?_⟩, h11, ?_⟩
          · intro hc; exact absurd hc hp
          · simp [afterRecv, h2]
          · simpa [afterRecv] using h3
          · simp only [afterRecv, List.length_append, List.length_singleton]; omega
          · intro m hm
            simp only [afterRecv, List.mem_append, List.mem_singleton] at hm
            rcases hm with hm | hm
            · exact h6 m hm
            · rw [hm]; exact hq
          · simp [afterRecv, h8a]
          · simp [afterRecv, h9b]
          · intro hc; have := (h12 hc).2; simp [hopen] at this
        next hge =>
          simp at h; subst h
          apply srvSend_inv _ _ msg
          exact ⟨h1, h2, h3, h4, hopen, h6, hr, (ackFor_queues hq).2, ⟨b.received, rfl, h7a,
            by simp [afterRecv, h8a]⟩, ⟨h9a, by simp [afterRecv, h9b]⟩, h11, h12⟩
    · rw [queueEnvelopes_refuses bs b msg se hr hf] at h
      simp at h; subst h
      apply srvSend_inv _ _ msg
      exact ⟨h1, h2, h3, h4, hopen, h6, hr, ackFor_refuses hf, ⟨b.received, rfl, h7a,
        by simp [afterRecv, h8a]⟩, ⟨h9a, by simp [afterRecv, h9b]⟩, h11, h12⟩
    · rw [queueEnvelopes_unknown bs b msg se hr hu] at h
      simp at h; subst h
      refine ⟨h1, h2, h3, h4, ?_, h6, ?_, ?_, ?_, ?_, h11, h12⟩
      · simp [afterRecv, hopen]
      · intro hc; simp at hc
      · intro hc; simp at hc
      · intro hc; simp at hc
      · intro e1 hc; simp at hc

theorem closeQueue_inv (f : Envelope → Action) (b b1 : broadcaster)
    (h : closeQueue b = some b1) (hi : Inv f b) : Inv f b1 := by
  obtain ⟨h1, h2, h3, h4, h5, h6, h7, h8, h9, h10, h11, h12⟩ := hi
  unfold closeQueue at h
  split at h
  next e hr =>
    simp at h; subst h
    by_cases hp : b.drainer = .parked
    · obtain ⟨hb, _⟩ := h1 hp
      refine ⟨?_, h2, ?_, h4, ?_, h6, ?_, ?_, ?_, ?_, ?_, ?_⟩
      · simp [hp]
      · simpa [hp, DrainerPC.held] using h3
      · simp
      · intro _; exact h7 (by simp [hr])
      · intro _; exact h8 (by simp [hr])
      · intro hc; simp at hc
      · intro e1 _; exact h10 e (Or.inl hr)
      · simp [hp]
      · intro _; exact ⟨hb, rfl⟩
    · refine ⟨?_, h2, ?_, h4, ?_, h6, ?_, ?_, ?_, ?_, ?_, ?_⟩
      · simp [hp]
      · simpa [hp] using h3
      · simp
      · intro _; exact h7 (by simp [hr])
      · intro _; exact h8 (by simp [hr])
      · intro hc; simp at hc
      · intro e1 _; exact h10 e (Or.inl hr)
      · simpa [hp] using h11
      · intro hc
        simp only [hp, if_false] at hc
        exact ⟨(h12 hc).1, rfl⟩
  next => simp at h

theorem drainQueue_inv (bs : handlerImpl) (f : Envelope → Action) (b b1 : broadcaster)
    (br : Branch) (h : drainQueue bs b br = some b1) (hi : Inv f b) : Inv f b1 := by
  obtain ⟨h1, h2, h3, h4, h5, h6, h7, h8, h9, h10, h11, h12⟩ := hi
  unfold drainQueue at h
  split at h
  next hd =>
    have hheld : b.dequeued = b.sunk := by simpa [hd, DrainerPC.held] using h3
    cases br with
    | queue =>
      simp only at h
      split at h
      next msg rest hb =>
        simp at h; subst h
        refine ⟨?_, ?_, ?_, ?_, h5, h6, h7, h8, h9, h10, ?_, ?_⟩
        · simp
        · simp [h2, hb]
        · simp [DrainerPC.held, hheld]
        · simp only [hb, List.length_cons] at h4; simp only; omega
        · simp
        · simp
      next hb =>
        split at h
        next hc =>
          simp at h; subst h
          refine ⟨?_, h2, ?_, h4, h5, h6, h7, h8, h9, h10, ?_, ?_⟩
          · simp
          · simp [DrainerPC.held, hheld]
          · simp
          · intro _; exact ⟨hb, hc⟩
        next => simp at h
    | exit =>
      simp only at h
      split at h
      · simp at h; subst h
        refine ⟨?_, h2, ?_, h4, h5, h6, h7, h8, h9, h10, ?_, ?_⟩
        · simp
        · simp [DrainerPC.held, hheld]
        · simp
        · simp
      · simp at h
    | block =>
      simp only at h
      split at h
      next hc =>
        simp at h; subst h
        refine ⟨?_, h2, ?_, h4, h5, h6, h7, h8, h9, h10, ?_, ?_⟩
        · intro _; exact ⟨hc.1, hc.2.1⟩
        · simp [DrainerPC.held, hheld]
        · simp
        · simp
      next => simp at h
  next => simp at h

theorem targetEnqueue_inv (f : Envelope → Action) (b b1 : broadcaster) (ok : Bool)
    (h : targetEnqueue b ok = some b1) (hi : Inv f b) : Inv f b1 := by
  obtain ⟨h1, h2, h3, h4, h5, h6, h7, h8, h9, h10, h11, h12⟩ := hi
  unfold targetEnqueue at h
  split at h
  next msg hd =>
    simp at h; subst h
    have hheld : b.dequeued = b.sunk ++ [msg] := by simpa [hd, DrainerPC.held] using h3
    cases ok with
    | true =>
      refine ⟨?_, h2, ?_, h4, h5, h6, h7, h8, h9, h10, ?_, ?_⟩
      · simp
      · simp [DrainerPC.held, hheld]
      · simp
      · simp
    | false =>
      refine ⟨?_, h2, ?_, h4, h5, h6, h7, h8, h9, h10, ?_, ?_⟩
      · simp
      · simp [DrainerPC.held, hheld]
      · intro m hm; simp at hm; simp [hm]
      · simp
  next => simp at h

theorem exitFired_inv (f : Envelope → Action) (b : broadcaster) (hi : Inv f b) :
    Inv f (exitFired b) := by
  obtain ⟨h1, h2, h3, h4, h5, h6, h7, h8, h9, h10, h11, h12⟩ := hi
  unfold exitFired
  split
  next hp =>
    refine ⟨?_, h2, ?_, h4, h5, h6, h7, h8, h9, h10, ?_, ?_⟩
    · simp
    · simpa [hp, DrainerPC.held] using h3
    · simp
    · simp
  next => exact ⟨h1, h2, h3, h4, h5, h6, h7, h8, h9, h10, h11, h12⟩

theorem step_inv (bs : handlerImpl) (b b1 : broadcaster) (e : Event)
    (h : b.step bs e = some b1) (hi : Inv bs.filters b) : Inv bs.filters b1 := by
  unfold broadcaster.step at h
  split at h
  · simp at h
  · cases e with
    | recv r se => exact queueEnvelopes_inv bs b b1 r se h hi
    | close => exact closeQueue_inv _ b b1 h hi
    | drain br => exact drainQueue_inv bs _ b b1 br h hi
    | enqueue ok => exact targetEnqueue_inv _ b b1 ok h hi

/-! ## A drainer that has dequeued nothing -/

theorem queued_snoc (f : Envelope → Action) (ms : List Envelope) (m : Envelope) :
    queued f (ms ++ [m]) = queued f ms ++ (if (f m).queues = true then [m] else []) := by
  by_cases h : (f m).queues = true <;> simp [queued, List.filter_append, h]

theorem expectedAck_snoc_lt (f : Envelope → Action) (cap : Nat) (ms : List Envelope)
    (m : Envelope) (j : Nat) (h : j ≤ ms.length) :
    expectedAck f cap (ms ++ [m]) j = expectedAck f cap ms j := by
  simp [expectedAck, List.take_append_of_le_length h]

theorem expectedAck_last (f : Envelope → Action) (cap : Nat) (ms : List Envelope) (m : Envelope) :
    expectedAck f cap (ms ++ [m]) ms.length =
      if (queued f ms).length < cap then .SUCCESS else .SERVICE_UNAVAILABLE := by
  simp [expectedAck, List.take_append_of_le_length (Nat.le_refl ms.length)]

theorem refuses_not_queues {a : Action} (h : a.refuses = true) : a.queues = false := by
  cases a <;> simp [Action.queues, Action.refuses] at h ⊢

theorem Quiet_congr (f : Envelope → Action) (b b1 : broadcaster) (h : Quiet f b)
    (h1 : b1.inserted = b.inserted) (h2 : b1.received = b.received) (h3 : b1.sends = b.sends)
    (h4 : b1.queue.cap = b.queue.cap) : Quiet f b1 := by
  obtain ⟨ha, hb⟩ := h
  constructor
  · rw [h1, h2, h4]; exact ha
  · rw [h2, h3, h4]; exact hb

theorem Quiet_snoc (f : Envelope → Action) (b b1 : broadcaster) (msg : Envelope) (st : Status)
    (hlen : b.received.length = b.sends.length) (hq : Quiet f b)
    (hrec : b1.received = b.received ++ [msg]) (hsend : b1.sends = b.sends ++ [st])
    (hcap : b1.queue.cap = b.queue.cap)
    (hins : b1.inserted = (queued f (b.received ++ [msg])).take b.queue.cap)
    (hst : (f msg).queues = true →
      st = if (queued f b.received).length < b.queue.cap then .SUCCESS
           else .SERVICE_UNAVAILABLE) :
    Quiet f b1 := by
  obtain ⟨_, hb⟩ := hq
  constructor
  · rw [hrec, hcap]; exact hins
  · intro j m st1 hm hs hqm
    rw [hrec] at hm ⊢
    rw [hsend] at hs
    rw [hcap]
    rcases Nat.lt_trichotomy j b.received.length with hj | hj | hj
    · rw [List.getElem?_append_left hj] at hm
      rw [List.getElem?_append_left (by omega)] at hs
      rw [expectedAck_snoc_lt f _ _ _ _ (Nat.le_of_lt hj)]
      exact hb j m st1 hm hs hqm
    · subst hj
      rw [expectedAck_last]
      have e1 : (b.received ++ [msg])[b.received.length]? = some msg := by simp
      have e2 : (b.sends ++ [st])[b.received.length]? = some st := by simp [hlen]
      rw [e1] at hm; rw [e2] at hs
      simp only [Option.some.injEq] at hm hs
      subst hm; subst hs
      exact hst hqm
    · have : (b.received ++ [msg])[j]? = none := by
        apply List.getElem?_eq_none; simp; omega
      rw [this] at hm; simp at hm

@[simp] theorem srvSend_queue (b : broadcaster) (st : Status) (se : Option Err) :
    (srvSend b st se).queue = b.queue := by cases se <;> rfl

@[simp] theorem srvSend_drainer (b : broadcaster) (st : Status) (se : Option Err) :
    (srvSend b st se).drainer = b.drainer := by cases se <;> rfl

@[simp] theorem srvSend_recvCalls (b : broadcaster) (st : Status) (se : Option Err) :
    (srvSend b st se).recvCalls = b.recvCalls := by cases se <;> rfl

@[simp] theorem srvSend_received (b : broadcaster) (st : Status) (se : Option Err) :
    (srvSend b st se).received = b.received := by cases se <;> rfl

@[simp] theorem srvSend_sends (b : broadcaster) (st : Status) (se : Option Err) :
    (srvSend b st se).sends = b.sends ++ [st] := by cases se <;> rfl

@[simp] theorem srvSend_inserted (b : broadcaster) (st : Status) (se : Option Err) :
    (srvSend b st se).inserted = b.inserted := by cases se <;> rfl

@[simp] theorem srvSend_dequeued (b : broadcaster) (st : Status) (se : Option Err) :
    (srvSend b st se).dequeued = b.dequeued := by cases se <;> rfl

@[simp] theorem srvSend_sunk (b : broadcaster) (st : Status) (se : Option Err) :
    (srvSend b st se).sunk = b.sunk := by cases se <;> rfl

theorem srvSend_receiver (b : broadcaster) (st : Status) (se : Option Err) :
    (srvSend b st se).receiver = match se with
      | none => b.receiver
      | some e => .returning e := by cases se <;> rfl

theorem srvSend_acks (b : broadcaster) (st : Status) (se : Option Err) :
    (srvSend b st se).acks = match se with
      | none => b.acks ++ [st]
      | some _ => b.acks := by cases se <;> rfl

theorem queueEnvelopes_receiving (bs : handlerImpl) (b b1 : broadcaster)
    (r : Except Err Envelope) (se : Option Err) (h : queueEnvelopes bs b r se = some b1) :
    b.receiver = .receiving := by
  unfold queueEnvelopes at h
  split at h
  · assumption
  · simp at h

theorem queueEnvelopes_quiet (bs : handlerImpl) (b b1 : broadcaster) (r : Except Err Envelope)
    (se : Option Err) (h : queueEnvelopes bs b r se = some b1) (hi : Inv bs.filters b)
    (hq : QuietIf bs.filters b) : QuietIf bs.filters b1 := by
  have hr := queueEnvelopes_receiving bs b b1 r se h
  have hna : b.receiver ≠ .aborted := by simp [hr]
  have hlen := (hi.acked hna).length_eq
  have hopen : b.queue.closed = false := by
    cases hc : b.queue.closed with
    | false => rfl
    | true => obtain ⟨e, he⟩ := hi.closed_iff.mp hc; simp [hr] at he
  intro hd1 ha1
  cases r with
  | error e =>
    rw [queueEnvelopes_error bs b e se hr] at h
    simp at h; subst h
    exact Quiet_congr _ b _ (hq hd1 hna) rfl rfl rfl rfl
  | ok msg =>
    rcases action_cases (bs.filters msg) with hqm | hf | hu
    · rw [queueEnvelopes_queues bs b msg se hr hqm] at h
      simp only [hopen, Bool.false_eq_true, if_false] at h
      split at h
      next hp =>
        simp at h; subst h
        simp at hd1
      next hp =>
        split at h
        next hlt =>
          simp at h; subst h
          have hd : b.dequeued = [] := by simpa [afterRecv] using hd1
          have hQ := hq hd hna
          have hbuf : b.queue.buf = b.inserted := by simpa [hd] using hi.fifo.symm
          have hfill := hQ.filled
          have hl : (queued bs.filters b.received).length < b.queue.cap := by
            have : b.inserted.length < b.queue.cap := by rw [← hbuf]; exact hlt
            rw [hfill, List.length_take] at this
            omega
          apply Quiet_snoc _ b _ msg .SUCCESS hlen hQ
          · simp [afterRecv]
          · simp [afterRecv]
          · simp [afterRecv]
          · simp only [srvSend_inserted, queued_snoc, hqm, if_true]
            rw [hfill, List.take_of_length_le (Nat.le_of_lt hl)]
            rw [List.take_of_length_le]
            simp only [List.length_append, List.length_singleton]; omega
          · intro _; simp [hl]
        next hge =>
          simp at h; subst h
          have hd : b.dequeued = [] := by simpa [afterRecv] using hd1
          have hQ := hq hd hna
          have hbuf : b.queue.buf = b.inserted := by simpa [hd] using hi.fifo.symm
          have hfill := hQ.filled
          have hl : ¬ (queued bs.filters b.received).length < b.queue.cap := by
            have : ¬ b.inserted.length < b.queue.cap := by rw [← hbuf]; exact hge
            rw [hfill, List.length_take] at this
            omega
          apply Quiet_snoc _ b _ msg .SERVICE_UNAVAILABLE hlen hQ
          · simp [afterRecv]
          · simp [afterRecv]
          · simp [afterRecv]
          · simp only [srvSend_inserted, queued_snoc, hqm, if_true, afterRecv]
            rw [List.take_append_of_le_length (by omega)]
            exact hfill
          · intro _; simp [hl]
    · rw [queueEnvelopes_refuses bs b msg se hr hf] at h
      simp at h; subst h
      have hd : b.dequeued = [] := by simpa [afterRecv] using hd1
      have hQ := hq hd hna
      have hnq := refuses_not_queues hf
      apply Quiet_snoc _ b _ msg .BAD_REQUEST hlen hQ
      · simp [afterRecv]
      · simp [afterRecv]
      · simp [afterRecv]
      · simp only [srvSend_inserted, queued_snoc, hnq, afterRecv]
        simpa using hQ.filled
      · intro hc; simp [hnq] at hc
    · rw [queueEnvelopes_unknown bs b msg se hr hu] at h
      simp at h; subst h
      simp at ha1

/-! ## What each goroutine leaves alone -/

theorem drainQueue_same (bs : handlerImpl) (b b1 : broadcaster) (br : Branch)
    (h : drainQueue bs b br = some b1) :
    ReceiverSame b b1 ∧ b.drainer = .selecting ∧ b1.sunk = b.sunk ∧
      (b1.dequeued = [] → b.dequeued = []) := by
  unfold drainQueue at h
  split at h
  next hd =>
    cases br with
    | queue =>
      simp only at h
      split at h
      · simp at h; subst h
        exact ⟨⟨rfl, rfl, rfl, rfl, rfl, rfl, rfl, rfl⟩, hd, rfl, by simp⟩
      · split at h
        · simp at h; subst h
          exact ⟨⟨rfl, rfl, rfl, rfl, rfl, rfl, rfl, rfl⟩, hd, rfl, by simp⟩
        · simp at h
    | exit =>
      simp only at h
      split at h
      · simp at h; subst h
        exact ⟨⟨rfl, rfl, rfl, rfl, rfl, rfl, rfl, rfl⟩, hd, rfl, by simp⟩
      · simp at h
    | block =>
      simp only at h
      split at h
      · simp at h; subst h
        exact ⟨⟨rfl, rfl, rfl, rfl, rfl, rfl, rfl, rfl⟩, hd, rfl, by simp⟩
      · simp at h
  next => simp at h

theorem targetEnqueue_same (b b1 : broadcaster) (ok : Bool) (h : targetEnqueue b ok = some b1) :
    ReceiverSame b b1 ∧ b1.queue = b.queue ∧ b1.dequeued = b.dequeued ∧
      ∃ msg, b.drainer = .holding msg ∧ b1.sunk = b.sunk ++ [msg] ∧
        b1.drainer = if ok = true then .selecting else .returned (.refused msg) := by
  unfold targetEnqueue at h
  split at h
  next msg hd =>
    simp at h; subst h
    exact ⟨⟨rfl, rfl, rfl, rfl, rfl, rfl, rfl, rfl⟩, rfl, rfl, msg, hd, rfl, rfl⟩
  next => simp at h

theorem closeQueue_same (b b1 : broadcaster) (h : closeQueue b = some b1) :
    (∃ e, b.receiver = .returning e ∧ b1.receiver = .returned e) ∧
      b1.recvCalls = b.recvCalls ∧ b1.received = b.received ∧ b1.sends = b.sends ∧
      b1.acks = b.acks ∧ b1.inserted = b.inserted ∧ b1.queue.cap = b.queue.cap ∧
      b1.queue.buf = b.queue.buf ∧ b1.queue.closed = true ∧
      b1.dequeued = b.dequeued ∧ b1.sunk = b.sunk ∧
      b1.drainer = (if b.drainer = .parked then .returned .queueClosed else b.drainer) := by
  unfold closeQueue at h
  split at h
  next e hr =>
    simp at h; subst h
    exact ⟨⟨e, hr, rfl⟩, rfl, rfl, rfl, rfl, rfl, rfl, rfl, rfl, rfl, rfl, rfl⟩
  next => simp at h

theorem exitFired_same (b : broadcaster) :
    ReceiverSame b (exitFired b) ∧ (exitFired b).queue = b.queue ∧
      (exitFired b).dequeued = b.dequeued ∧ (exitFired b).sunk = b.sunk ∧
      (exitFired b).drainer = (if b.drainer = .parked then .returned .exitChan else b.drainer) := by
  unfold exitFired
  split
  · exact ⟨⟨rfl, rfl, rfl, rfl, rfl, rfl, rfl, rfl⟩, rfl, rfl, rfl, rfl⟩
  · exact ⟨⟨rfl, rfl, rfl, rfl, rfl, rfl, rfl, rfl⟩, rfl, rfl, rfl, rfl⟩

theorem QuietIf_same (f : Envelope → Action) (b b1 : broadcaster) (hs : ReceiverSame b b1)
    (hd : b1.dequeued = [] → b.dequeued = []) (hq : QuietIf f b) : QuietIf f b1 := by
  intro hd1 ha1
  exact Quiet_congr f b b1 (hq (hd hd1) (by rw [← hs.receiver]; exact ha1))
    hs.inserted hs.received hs.sends hs.cap

theorem closeQueue_quiet (f : Envelope → Action) (b b1 : broadcaster)
    (h : closeQueue b = some b1) (hq : QuietIf f b) : QuietIf f b1 := by
  obtain ⟨⟨e, hr, _⟩, _, h2, h3, _, h5, h6, _, _, h9, _, _⟩ := closeQueue_same b b1 h
  intro hd1 _
  exact Quiet_congr f b b1 (hq (by rw [← h9]; exact hd1) (by simp [hr])) h5 h2 h3 h6

/-- The receive loop never reaches the `default:` branch or a panic when the
filter chain only returns the four named actions. -/
theorem queueEnvelopes_alive (bs : handlerImpl) (b b1 : broadcaster) (r : Except Err Envelope)
    (se : Option Err) (h : queueEnvelopes bs b r se = some b1) (hi : Inv bs.filters b)
    (hf : ∀ m, bs.filters m ≠ .Unknown) : b1.receiver ≠ .aborted := by
  have hr := queueEnvelopes_receiving bs b b1 r se h
  have hopen : b.queue.closed = false := by
    cases hc : b.queue.closed with
    | false => rfl
    | true => obtain ⟨e, he⟩ := hi.closed_iff.mp hc; simp [hr] at he
  cases r with
  | error e =>
    rw [queueEnvelopes_error bs b e se hr] at h
    simp at h; subst h; simp
  | ok msg =>
    rcases action_cases (bs.filters msg) with hqm | hfm | hu
    · rw [queueEnvelopes_queues bs b msg se hr hqm] at h
      simp only [hopen, Bool.false_eq_true, if_false] at h
      split at h
      · simp at h; subst h; cases se <;> simp [srvSend, afterRecv, hr]
      · split at h
        · simp at h; subst h; cases se <;> simp [srvSend, afterRecv, hr]
        · simp at h; subst h; cases se <;> simp [srvSend, afterRecv, hr]
    · rw [queueEnvelopes_refuses bs b msg se hr hfm] at h
      simp at h; subst h; cases se <;> simp [srvSend, afterRecv, hr]
    · exact absurd hu (hf msg)

theorem queueEnvelopes_same (bs : handlerImpl) (b b1 : broadcaster) (r : Except Err Envelope)
    (se : Option Err) (h : queueEnvelopes bs b r se = some b1) :
    b1.queue.cap = b.queue.cap ∧ b1.queue.closed = b.queue.closed ∧ b1.sunk = b.sunk ∧
      (b1.drainer = b.drainer ∧ b1.dequeued = b.dequeued ∨
        b.drainer = .parked ∧ ∃ msg, b1.drainer = .holding msg ∧
          b1.dequeued = b.dequeued ++ [msg]) := by
  have hr := queueEnvelopes_receiving bs b b1 r se h
  cases r with
  | error e =>
    rw [queueEnvelopes_error bs b e se hr] at h
    simp at h; subst h; simp
  | ok msg =>
    rcases action_cases (bs.filters msg) with hqm | hfm | hu
    · rw [queueEnvelopes_queues bs b msg se hr hqm] at h
      split at h
      · simp at h; subst h; simp [afterRecv]
      · split at h
        next hp => simp at h; subst h; simp [afterRecv, hp]
        next hp =>
          split at h
          · simp at h; subst h; simp [afterRecv]
          · simp at h; subst h; simp [afterRecv]
    · rw [queueEnvelopes_refuses bs b msg se hr hfm] at h
      simp at h; subst h; simp [afterRecv]
    · rw [queueEnvelopes_unknown bs b msg se hr hu] at h
      simp at h; subst h; simp [afterRecv]

/-! ## `SERVICE_UNAVAILABLE` needs a full queue -/

theorem successAcked_length_le (ms : List Envelope) (sts : List Status) :
    (successAcked ms sts).length ≤ ms.length := by
  induction ms generalizing sts with
  | nil => simp [successAcked]
  | cons x xs ih =>
    cases sts with
    | nil => simp [successAcked]
    | cons a l =>
      have := ih l
      by_cases ha : a = .SUCCESS <;> simp [successAcked, ha] <;> omega

theorem Overflow_snoc (b b1 : broadcaster) (st : Status) (ho : Overflow b)
    (hsend : b1.sends = b.sends ++ [st]) (hcap : b1.queue.cap = b.queue.cap)
    (hst : st = .SERVICE_UNAVAILABLE → b.queue.cap ≤ b.sends.length) : Overflow b1 := by
  intro j hj
  rw [hsend] at hj
  rw [hcap]
  rcases Nat.lt_trichotomy j b.sends.length with h | h | h
  · rw [List.getElem?_append_left h] at hj
    exact ho j hj
  · subst h
    simp at hj
    exact hst hj
  · have : (b.sends ++ [st])[j]? = none := by
      apply List.getElem?_eq_none; simp; omega
    rw [this] at hj; simp at hj

theorem Overflow_same (b b1 : broadcaster) (hs : ReceiverSame b b1) (ho : Overflow b) :
    Overflow b1 := by
  intro j hj
  rw [hs.sends] at hj
  rw [hs.cap]
  exact ho j hj

theorem queueEnvelopes_overflow (bs : handlerImpl) (b b1 : broadcaster)
    (r : Except Err Envelope) (se : Option Err) (h : queueEnvelopes bs b r se = some b1)
    (hi : Inv bs.filters b) (ho : Overflow b) : Overflow b1 := by
  have hr := queueEnvelopes_receiving bs b b1 r se h
  have hna : b.receiver ≠ .aborted := by simp [hr]
  have hlen := (hi.acked hna).length_eq
  cases r with
  | error e =>
    rw [queueEnvelopes_error bs b e se hr] at h
    simp at h; subst h
    exact ho
  | ok msg =>
    rcases action_cases (bs.filters msg) with hqm | hf | hu
    · rw [queueEnvelopes_queues bs b msg se hr hqm] at h
      split at h
      · simp at h; subst h; exact ho
      · split at h
        · simp at h; subst h
          exact Overflow_snoc b _ .SUCCESS ho (by simp [afterRecv]) (by simp [afterRecv])
            (by simp)
        · split at h
          · simp at h; subst h
            exact Overflow_snoc b _ .SUCCESS ho (by simp [afterRecv]) (by simp [afterRecv])
              (by simp)
          next hge =>
            simp at h; subst h
            refine Overflow_snoc b _ .SERVICE_UNAVAILABLE ho (by simp [afterRecv])
              (by simp [afterRecv]) ?_
            intro _
            have h1 : b.queue.buf.length ≤ b.inserted.length := by
              rw [hi.fifo]; simp
            have h2 : b.inserted.length ≤ b.received.length := by
              rw [hi.successes hna]; exact successAcked_length_le _ _
            omega
    · rw [queueEnvelopes_refuses bs b msg se hr hf] at h
      simp at h; subst h
      exact Overflow_snoc b _ .BAD_REQUEST ho (by simp [afterRecv]) (by simp [afterRecv])
        (by simp)
    · rw [queueEnvelopes_unknown bs b msg se hr hu] at h
      simp at h; subst h
      exact ho

theorem closeQueue_overflow (b b1 : broadcaster) (h : closeQueue b = some b1)
    (ho : Overflow b) : Overflow b1 := by
  obtain ⟨_, _, _, h3, _, _, h6, _⟩ := closeQueue_same b b1 h
  intro j hj
  rw [h3] at hj
  rw [h6]
  exact ho j hj

/-! ## Reachable states -/

theorem Handle_good (lim : Nat) (bs : handlerImpl) (b : broadcaster)
    (h : Handle lim bs = some b) :
    Good bs b := by
  have hi := Handle_inv lim bs b h
  unfold Handle newBroadcaster make at h
  split at h
  · simp at h
  next hq =>
    simp at h
    subst h
    refine ⟨hi, by simp, by simp, ?_, by simp, ?_, ?_⟩
    · have h0 : ¬ bs.queueSize < 0 := fun hc => hq (Or.inl hc)
      simp only [Int.toNat_of_nonneg (Int.not_lt.mp h0)]
    · intro _ _
      constructor
      · simp [queued]
      · intro j m st hm; simp at hm
    · intro j hj; simp at hj

theorem drainQueue_drainer (bs : handlerImpl) (b b1 : broadcaster) (br : Branch)
    (h : drainQueue bs b br = some b1) :
    (b1.drainer = .parked → bs.exitChan.closed = false) ∧
      (b1.drainer = .returned .exitChan → bs.exitChan.closed = true) := by
  unfold drainQueue at h
  split at h
  next hd =>
    cases br with
    | queue =>
      simp only at h
      split at h
      · simp at h; subst h; simp
      · split at h
        · simp at h; subst h; simp
        · simp at h
    | exit =>
      simp only at h
      split at h
      next hc => simp at h; subst h; simp [hc]
      · simp at h
    | block =>
      simp only at h
      split at h
      next hc => simp at h; subst h; simp [hc.2.2]
      · simp at h
  next => simp at h

theorem step_good (bs : handlerImpl) (b b1 : broadcaster) (e : Event)
    (h : b.step bs e = some b1) (hg : Good bs b) : Good bs b1 := by
  have hi1 := step_inv bs b b1 e h hg.inv
  obtain ⟨hi, haw, hex, hcap, hal, hqu, hov⟩ := hg
  unfold broadcaster.step at h
  split at h
  · simp at h
  · cases e with
    | recv r se =>
      simp only at h
      obtain ⟨c1, _, _, c4⟩ := queueEnvelopes_same bs b b1 r se h
      refine ⟨hi1, ?_, ?_, ?_, ?_, queueEnvelopes_quiet bs b b1 r se h hi hqu,
        queueEnvelopes_overflow bs b b1 r se h hi hov⟩
      · intro hc
        rcases c4 with ⟨hd, _⟩ | ⟨_, m, hd, _⟩
        · rw [hd]; exact haw hc
        · simp [hd]
      · intro hc
        rcases c4 with ⟨hd, _⟩ | ⟨_, m, hd, _⟩
        · rw [hd] at hc; exact hex hc
        · simp [hd] at hc
      · rw [c1]; exact hcap
      · intro hf; exact queueEnvelopes_alive bs b b1 r se h hi hf
    | close =>
      simp only at h
      obtain ⟨⟨e, hr, hr1⟩, _, _, _, _, _, c6, _, _, _, _, c11⟩ := closeQueue_same b b1 h
      refine ⟨hi1, ?_, ?_, ?_, ?_, closeQueue_quiet _ b b1 h hqu, closeQueue_overflow b b1 h hov⟩
      · intro hc
        rw [c11]
        by_cases hp : b.drainer = .parked
        · simp [hp]
        · simp [hp]
      · intro hc
        rw [c11] at hc
        by_cases hp : b.drainer = .parked
        · simp [hp] at hc
        · simp only [hp, if_false] at hc; exact hex hc
      · rw [c6]; exact hcap
      · intro _; simp [hr1]
    | drain br =>
      simp only at h
      obtain ⟨hs, _, _, hd⟩ := drainQueue_same bs b b1 br h
      obtain ⟨d1, d2⟩ := drainQueue_drainer bs b b1 br h
      refine ⟨hi1, ?_, d2, ?_, ?_, QuietIf_same _ b b1 hs hd hqu, Overflow_same b b1 hs hov⟩
      · intro hc hp; simp [d1 hp] at hc
      · rw [hs.cap]; exact hcap
      · intro hf; rw [hs.receiver]; exact hal hf
    | enqueue ok =>
      simp only at h
      obtain ⟨hs, _, hd, m, _, _, hdr⟩ := targetEnqueue_same b b1 ok h
      refine ⟨hi1, ?_, ?_, ?_, ?_, QuietIf_same _ b b1 hs (by rw [hd]; exact id) hqu,
        Overflow_same b b1 hs hov⟩
      · intro _; rw [hdr]; cases ok <;> simp
      · intro hc; rw [hdr] at hc; cases ok <;> simp at hc
      · rw [hs.cap]; exact hcap
      · intro hf; rw [hs.receiver]; exact hal hf

theorem exitFired_good (bs : handlerImpl) (b : broadcaster) (hg : Good bs b) :
    Good { bs with exitChan := { bs.exitChan with closed := true } } (exitFired b) := by
  obtain ⟨hi, haw, hex, hcap, hal, hqu, hov⟩ := hg
  obtain ⟨hs, _, hd, _, hdr⟩ := exitFired_same b
  refine ⟨exitFired_inv _ b hi, ?_, ?_, ?_, ?_, QuietIf_same _ b _ hs (by rw [hd]; exact id) hqu,
    Overflow_same b _ hs hov⟩
  · intro _
    rw [hdr]
    by_cases hp : b.drainer = .parked
    · simp [hp]
    · simp [hp]
  · intro _; rfl
  · rw [hs.cap]; exact hcap
  · intro hf; rw [hs.receiver]; exact hal hf

theorem World.step_bs (w w1 : World) (e : WEvent) (h : w.step e = some w1) :
    w1.bs.filters = w.bs.filters ∧ w1.bs.queueSize = w.bs.queueSize ∧
      (w.bs.exitChan.closed = true → w1.bs.exitChan.closed = true) := by
  unfold World.step at h
  split at h
  · simp at h
  · cases e with
    | handle =>
      simp only [Option.map_eq_some'] at h
      obtain ⟨b, _, hw⟩ := h
      subst hw; simp
    | closeExit =>
      simp only at h
      split at h
      · simp at h
      · simp at h; subst h; simp
    | sess i e =>
      simp only at h
      split at h
      · simp at h
      · simp only [Option.map_eq_some'] at h
        obtain ⟨b, _, hw⟩ := h
        subst hw; simp

theorem World.step_allGood (w w1 : World) (e : WEvent) (h : w.step e = some w1)
    (hg : w.AllGood) : w1.AllGood := by
  unfold World.step at h
  split at h
  · simp at h
  · cases e with
    | handle =>
      simp only [Option.map_eq_some'] at h
      obtain ⟨b, hb, hw⟩ := h
      subst hw
      intro b0 hb0
      simp only [List.mem_append, List.mem_singleton] at hb0
      rcases hb0 with hb0 | hb0
      · exact hg b0 hb0
      · rw [hb0]; exact Handle_good _ _ b hb
    | closeExit =>
      simp only at h
      split at h
      · simp at h
      · simp at h; subst h
        intro b0 hb0
        simp only [List.mem_map] at hb0
        obtain ⟨b, hb, rfl⟩ := hb0
        exact exitFired_good _ b (hg b hb)
    | sess i e =>
      simp only at h
      split at h
      · simp at h
      next b hb =>
        simp only [Option.map_eq_some'] at h
        obtain ⟨b1, hb1, hw⟩ := h
        subst hw
        intro b0 hb0
        rcases List.mem_or_eq_of_mem_set hb0 with hb0 | hb0
        · exact hg b0 hb0
        · rw [hb0]; exact Broadcast.step_good _ b b1 e hb1 (hg b (List.getElem?_mem hb))

theorem World.run_allGood (es : List WEvent) (w w1 : World) (h : w.run es = some w1)
    (hg : w.AllGood) :
    w1.AllGood ∧ w1.bs.filters = w.bs.filters ∧ w1.bs.queueSize = w.bs.queueSize := by
  induction es generalizing w with
  | nil => simp [World.run] at h; subst h; exact ⟨hg, rfl, rfl⟩
  | cons e es ih =>
    simp only [World.run, Option.bind_eq_some] at h
    obtain ⟨w2, h2, h3⟩ := h
    obtain ⟨a1, a2, a3⟩ := ih w2 h3 (World.step_allGood w w2 e h2 hg)
    obtain ⟨c1, c2, _⟩ := World.step_bs w w2 e h2
    exact ⟨a1, a2.trans c1, a3.trans c2⟩

/-- Reachable states: every session is `Good`, and the configuration of the
handler is the one given to `NewHandlerImpl`. -/
theorem reachable_good (lim : Nat) (q : Int) (f : Envelope → Action) (es : List WEvent) (w : World)
    (h : (World.new lim q f).run es = some w) :
    w.AllGood ∧ w.bs.filters = f ∧ w.bs.queueSize = q := by
  have := World.run_allGood es (World.new lim q f) w h (by intro b hb; simp [World.new] at hb)
  simpa [World.new, NewHandlerImpl] using this

theorem World.step_limit (w w1 : World) (e : WEvent) (h : w.step e = some w1) :
    w1.chanLimit = w.chanLimit := by
  unfold World.step at h
  split at h
  · simp at h
  · cases e with
    | handle =>
      simp only [Option.map_eq_some'] at h
      obtain ⟨b, _, hw⟩ := h
      subst hw; rfl
    | closeExit =>
      simp only at h
      split at h
      · simp at h
      · simp at h; subst h; rfl
    | sess i e =>
      simp only at h
      split at h
      · simp at h
      · simp only [Option.map_eq_some'] at h
        obtain ⟨b, _, hw⟩ := h
        subst hw; rfl

theorem World.run_limit (es : List WEvent) (w w1 : World) (h : w.run es = some w1) :
    w1.chanLimit = w.chanLimit := by
  induction es generalizing w with
  | nil => simp [World.run] at h; subst h; rfl
  | cons e es ih =>
    simp only [World.run, Option.bind_eq_some] at h
    obtain ⟨w2, h2, h3⟩ := h
    exact (ih w2 h3).trans (World.step_limit w w2 e h2)

theorem reachable_limit (lim : Nat) (q : Int) (f : Envelope → Action) (es : List WEvent)
    (w : World) (h : (World.new lim q f).run es = some w) : w.chanLimit = lim :=
  World.run_limit es (World.new lim q f) w h

/-! ## What stays fixed along a run -/

theorem World.step_rel (R : broadcaster → broadcaster → Prop) (hrefl : ∀ b, R b b)
    (hstep : ∀ bs b e b1, broadcaster.step bs b e = some b1 → R b b1)
    (hexit : ∀ b, R b (exitFired b))
    (w w1 : World) (e : WEvent) (h : w.step e = some w1) (i : Nat) (b : broadcaster)
    (hb : w.sessions[i]? = some b) : ∃ b1, w1.sessions[i]? = some b1 ∧ R b b1 := by
  unfold World.step at h
  split at h
  · simp at h
  · cases e with
    | handle =>
      simp only [Option.map_eq_some'] at h
      obtain ⟨b0, _, hw⟩ := h
      subst hw
      refine ⟨b, ?_, hrefl b⟩
      have hi : i < w.sessions.length := (List.getElem?_eq_some.mp hb).1
      simp only [List.getElem?_append_left hi]
      exact hb
    | closeExit =>
      simp only at h
      split at h
      · simp at h
      · simp at h; subst h
        exact ⟨exitFired b, by simp [hb], hexit b⟩
    | sess j e =>
      simp only at h
      split at h
      · simp at h
      next b0 hb0 =>
        simp only [Option.map_eq_some'] at h
        obtain ⟨b1, hb1, hw⟩ := h
        subst hw
        by_cases hij : j = i
        · subst hij
          rw [hb] at hb0
          simp only [Option.some.injEq] at hb0
          subst hb0
          have hi : j < w.sessions.length := (List.getElem?_eq_some.mp hb).1
          exact ⟨b1, by simp [List.getElem?_set, hi], hstep _ _ _ _ hb1⟩
        · exact ⟨b, by simp [List.getElem?_set_ne hij, hb], hrefl b⟩

theorem World.run_rel (R : broadcaster → broadcaster → Prop) (hrefl : ∀ b, R b b)
    (htrans : ∀ a b c, R a b → R b c → R a c)
    (hstep : ∀ bs b e b1, broadcaster.step bs b e = some b1 → R b b1)
    (hexit : ∀ b, R b (exitFired b))
    (es : List WEvent) (w w1 : World) (h : w.run es = some w1) (i : Nat) (b : broadcaster)
    (hb : w.sessions[i]? = some b) : ∃ b1, w1.sessions[i]? = some b1 ∧ R b b1 := by
  induction es generalizing w b with
  | nil => simp [World.run] at h; subst h; exact ⟨b, hb, hrefl b⟩
  | cons e es ih =>
    simp only [World.run, Option.bind_eq_some] at h
    obtain ⟨w2, h2, h3⟩ := h
    obtain ⟨b2, hb2, r2⟩ := World.step_rel R hrefl hstep hexit w w2 e h2 i b hb
    obtain ⟨b1, hb1, r1⟩ := ih w2 h3 b2 hb2
    exact ⟨b1, hb1, htrans _ _ _ r2 r1⟩

theorem step_staysFailed (bs : handlerImpl) (b : broadcaster) (e : Event) (b1 : broadcaster)
    (h : b.step bs e = some b1) : StaysFailed b b1 := by
  intro e0 he0
  unfold broadcaster.step at h
  split at h
  · simp at h
  · cases e with
    | recv r se =>
      simp only at h
      have hr := queueEnvelopes_receiving bs b b1 r se h
      rw [hr] at he0; simp at he0
    | close =>
      simp only at h
      obtain ⟨⟨e, hr, hr1⟩, c1, c2, c3, c4, _⟩ := closeQueue_same b b1 h
      rw [hr] at he0
      simp at he0
      subst he0
      exact ⟨Or.inr hr1, c1, c2, c3, c4⟩
    | drain br =>
      simp only at h
      obtain ⟨hs, _⟩ := drainQueue_same bs b b1 br h
      rw [hs.receiver]
      exact ⟨he0, hs.recvCalls, hs.received, hs.sends, hs.acks⟩
    | enqueue ok =>
      simp only at h
      obtain ⟨hs, _⟩ := targetEnqueue_same b b1 ok h
      rw [hs.receiver]
      exact ⟨he0, hs.recvCalls, hs.received, hs.sends, hs.acks⟩

theorem exitFired_staysFailed (b : broadcaster) : StaysFailed b (exitFired b) := by
  intro e0 he0
  obtain ⟨hs, _⟩ := exitFired_same b
  rw [hs.receiver]
  exact ⟨he0, hs.recvCalls, hs.received, hs.sends, hs.acks⟩

theorem step_staysOver (bs : handlerImpl) (b : broadcaster) (e : Event) (b1 : broadcaster)
    (h : b.step bs e = some b1) : StaysOver b b1 := by
  intro why hw
  unfold broadcaster.step at h
  split at h
  · simp at h
  · cases e with
    | recv r se =>
      simp only at h
      obtain ⟨_, _, c3, c4⟩ := queueEnvelopes_same bs b b1 r se h
      rcases c4 with ⟨hd, hq⟩ | ⟨hp, _⟩
      · exact ⟨by rw [hd]; exact hw, hq, c3⟩
      · rw [hp] at hw; simp at hw
    | close =>
      simp only at h
      obtain ⟨_, _, _, _, _, _, _, _, _, c9, c10, c11⟩ := closeQueue_same b b1 h
      refine ⟨?_, c9, c10⟩
      rw [c11, hw]; simp
    | drain br =>
      simp only at h
      obtain ⟨_, hd, _⟩ := drainQueue_same bs b b1 br h
      rw [hd] at hw; simp at hw
    | enqueue ok =>
      simp only at h
      obtain ⟨_, _, _, m, hd, _⟩ := targetEnqueue_same b b1 ok h
      rw [hd] at hw; simp at hw

theorem exitFired_staysOver (b : broadcaster) : StaysOver b (exitFired b) := by
  intro why hw
  obtain ⟨_, _, c3, c4, c5⟩ := exitFired_same b
  refine ⟨?_, c3, c4⟩
  rw [c5, hw]; simp

theorem run_staysFailed (es : List WEvent) (w w1 : World) (h : w.run es = some w1) (i : Nat)
    (b : broadcaster) (hb : w.sessions[i]? = some b) :
    ∃ b1, w1.sessions[i]? = some b1 ∧ StaysFailed b b1 := by
  refine World.run_rel StaysFailed ?_ ?_ step_staysFailed exitFired_staysFailed es w w1 h i b hb
  · intro b e he; exact ⟨he, rfl, rfl, rfl, rfl⟩
  · intro a b c hab hbc e he
    obtain ⟨h1, h2, h3, h4, h5⟩ := hab e he
    obtain ⟨g1, g2, g3, g4, g5⟩ := hbc e h1
    exact ⟨g1, g2.trans h2, g3.trans h3, g4.trans h4, g5.trans h5⟩

theorem run_staysOver (es : List WEvent) (w w1 : World) (h : w.run es = some w1) (i : Nat)
    (b : broadcaster) (hb : w.sessions[i]? = some b) :
    ∃ b1, w1.sessions[i]? = some b1 ∧ StaysOver b b1 := by
  refine World.run_rel StaysOver ?_ ?_ step_staysOver exitFired_staysOver es w w1 h i b hb
  · intro b why hw; exact ⟨hw, rfl, rfl⟩
  · intro a b c hab hbc why hw
    obtain ⟨h1, h2, h3⟩ := hab why hw
    obtain ⟨g1, g2, g3⟩ := hbc why h1
    exact ⟨g1, g2.trans h2, g3.trans h3⟩

/-- A step of session `i` in a live world is the step of that session. -/
theorem World.step_sess (w : World) (i : Nat) (e : Event) (b b1 : broadcaster)
    (hlive : w.dead = false) (hb : w.sessions[i]? = some b) (h : b.step w.bs e = some b1) :
    ∃ w1, w.step (.sess i e) = some w1 ∧ w1.sessions[i]? = some b1 ∧ w1.bs = w.bs ∧
      ∀ j, j ≠ i → w1.sessions[j]? = w.sessions[j]? := by
  have hi : i < w.sessions.length := (List.getElem?_eq_some.mp hb).1
  refine ⟨{ w with sessions := w.sessions.set i b1 }, ?_, ?_, rfl, ?_⟩
  · simp [World.step, hlive, hb, h]
  · simp [List.getElem?_set, hi]
  · intro j hj
    simp [List.getElem?_set_ne (Ne.symm hj)]

theorem live_step (w : World) (b : broadcaster) (hlive : w.dead = false) (hb : b ∈ w.sessions)
    (bs : handlerImpl) (e : Event) : b.step bs e = match e with
      | .recv r sendErr => queueEnvelopes bs b r sendErr
      | .close => closeQueue b
      | .drain br => drainQueue bs b br
      | .enqueue ok => targetEnqueue b ok := by
  have : b.receiver ≠ .aborted := by
    intro hc
    have : w.dead = true := by
      simp only [World.dead, List.any_eq_true]
      exact ⟨b, hb, by simp [hc]⟩
    rw [hlive] at this; simp at this
  simp [broadcaster.step, this]

/-- What an iteration of `queueEnvelopes` does with a received message whose
action is one of the four named ones, by case. -/
theorem queueEnvelopes_ok (bs : handlerImpl) (b : broadcaster) (msg : Envelope)
    (se : Option Err) (hr : b.receiver = .receiving) (hopen : b.queue.closed = false)
    (hu : bs.filters msg ≠ .Unknown) :
    ∃ b1 st, queueEnvelopes bs b (.ok msg) se = some b1 ∧ AckFor bs.filters msg st ∧
      b1.recvCalls = b.recvCalls + 1 ∧ b1.received = b.received ++ [msg] ∧
      b1.sends = b.sends ++ [st] ∧ b1.sunk = b.sunk ∧
      b1.receiver = (match se with
        | none => .receiving
        | some e => .returning e) ∧
      b1.acks = (match se with
        | none => b.acks ++ [st]
        | some _ => b.acks) ∧
      ((bs.filters msg).refuses = true → st = .BAD_REQUEST ∧ b1.queue = b.queue ∧
        b1.drainer = b.drainer ∧ b1.inserted = b.inserted ∧ b1.dequeued = b.dequeued) ∧
      ((bs.filters msg).queues = true → b.drainer ≠ .parked →
        b.queue.buf.length < b.queue.cap → st = .SUCCESS ∧
          b1.queue = { b.queue with buf := b.queue.buf ++ [msg] } ∧ b1.drainer = b.drainer ∧
          b1.inserted = b.inserted ++ [msg] ∧ b1.dequeued = b.dequeued) ∧
      ((bs.filters msg).queues = true → b.drainer ≠ .parked →
        ¬ b.queue.buf.length < b.queue.cap → st = .SERVICE_UNAVAILABLE ∧ b1.queue = b.queue ∧
          b1.drainer = b.drainer ∧ b1.inserted = b.inserted ∧ b1.dequeued = b.dequeued) ∧
      ((bs.filters msg).queues = true → b.drainer = .parked → st = .SUCCESS ∧
        b1.queue = b.queue ∧ b1.drainer = .holding msg ∧ b1.inserted = b.inserted ++ [msg] ∧
        b1.dequeued = b.dequeued ++ [msg]) := by
  rcases action_cases (bs.filters msg) with hq | hf | hu1
  · have hnr : (bs.filters msg).refuses = false := by
      cases hm : bs.filters msg <;> simp [hm, Action.queues, Action.refuses] at hq ⊢
    rw [queueEnvelopes_queues bs b msg se hr hq]
    simp only [hopen, Bool.false_eq_true, if_false]
    by_cases hp : b.drainer = .parked
    · simp only [hp, if_true]
      refine ⟨_, .SUCCESS, rfl, (ackFor_queues hq).1, ?_⟩
      simp [srvSend_receiver, srvSend_acks, afterRecv, hr, hnr, hp]
    · simp only [hp, if_false]
      by_cases hl : b.queue.buf.length < b.queue.cap
      · simp only [hl, if_true]
        refine ⟨_, .SUCCESS, rfl, (ackFor_queues hq).1, ?_⟩
        simp [srvSend_receiver, srvSend_acks, afterRecv, hr, hnr, hp, hl]
      · simp only [hl, if_false]
        refine ⟨_, .SERVICE_UNAVAILABLE, rfl, (ackFor_queues hq).2, ?_⟩
        simp [srvSend_receiver, srvSend_acks, afterRecv, hr, hnr, hp, hl]
  · have hnq := refuses_not_queues hf
    rw [queueEnvelopes_refuses bs b msg se hr hf]
    refine ⟨_, .BAD_REQUEST, rfl, ackFor_refuses hf, ?_⟩
    simp [srvSend_receiver, srvSend_acks, afterRecv, hr, hnq]
  · exact absurd hu1 hu

theorem forall₂_getElem? {α β : Type} {R : α → β → Prop} {as : List α} {bs : List β}
    (h : List.Forall₂ R as bs) (j : Nat) (a : α) (ha : as[j]? = some a) :
    ∃ b, bs[j]? = some b ∧ R a b := by
  induction h generalizing j with
  | nil => simp at ha
  | cons hab _ ih =>
    cases j with
    | zero => simp at ha; subst ha; exact ⟨_, by simp, hab⟩
    | succ k => simp at ha; simpa using ih k ha

theorem Good.is_open (bs : handlerImpl) (b : broadcaster) (hg : Good bs b)
    (hr : b.receiver = .receiving) : b.queue.closed = false := by
  cases hc : b.queue.closed with
  | false => rfl
  | true => obtain ⟨e, he⟩ := hg.inv.closed_iff.mp hc; simp [hr] at he

/-- C1.  In every reachable state of a live process in which a session is at
the top of its receive loop (no `Recv` or `Send` has failed), the session has
made as many `Recv` calls as it has received messages and has sent exactly as
many acknowledgments; the acknowledgment at position `j` is one that the
dispatch produces for the message at position `j` (`SUCCESS` or
`SERVICE_UNAVAILABLE` for `Accept`/`Reconfigure`, `BAD_REQUEST` for
`Reject`/`Forward`); and whatever the drainer has done, receiving one more
message of a named action with a successful send appends exactly one
acknowledgment of that kind and leaves the session in the loop. -/
theorem C1_one_ack_per_message (lim : Nat) (q : Int) (f : Envelope → Action) (es : List WEvent)
    (w : World) (i : Nat) (b : broadcaster) (hrun : (World.new lim q f).run es = some w)
    (hlive : w.dead = false) (hb : w.sessions[i]? = some b) (hr : b.receiver = .receiving) :
    b.recvCalls = b.received.length ∧ b.acks.length = b.received.length ∧
    (∀ (j : Nat) (m : Envelope), b.received[j]? = some m →
      ∃ st, b.acks[j]? = some st ∧ AckFor f m st) ∧
    (∀ msg, f msg ≠ .Unknown → ∃ w1 b1 st,
      w.step (.sess i (.recv (.ok msg) none)) = some w1 ∧ w1.sessions[i]? = some b1 ∧
      b1.receiver = .receiving ∧ b1.recvCalls = b.recvCalls + 1 ∧
      b1.received = b.received ++ [msg] ∧ b1.acks = b.acks ++ [st] ∧ AckFor f msg st) := by
  obtain ⟨hg, hf, _⟩ := reachable_good lim q f es w hrun
  have hgb := hg b (List.getElem?_mem hb)
  have hna : b.receiver ≠ .aborted := by simp [hr]
  obtain ⟨hsa, hrc⟩ := hgb.inv.io_receiving hr
  have hfa := hgb.inv.acked hna
  rw [hf, hsa] at hfa
  refine ⟨hrc, hfa.length_eq.symm, fun j m hm => forall₂_getElem? hfa j m hm, ?_⟩
  intro msg hu
  obtain ⟨b1, st, h1, h2, h3, h4, _, _, h7, h8, _⟩ :=
    queueEnvelopes_ok w.bs b msg none hr (Good.is_open _ b hgb hr) (by rw [hf]; exact hu)
  have hstep : b.step w.bs (.recv (.ok msg) none) = some b1 := by
    rw [live_step w b hlive (List.getElem?_mem hb)]; exact h1
  obtain ⟨w1, hw1, hb1, _⟩ := World.step_sess w i _ b b1 hlive hb hstep
  exact ⟨w1, b1, st, hw1, hb1, h7, h3, h4, h8, by rw [← hf]; exact h2⟩

theorem C1_witness :
    (World.new demoLimit 1 demoFilter).run scheduleC1 = some (World.after demoLimit 1 demoFilter scheduleC1) ∧
    ((World.after demoLimit 1 demoFilter scheduleC1).session 0).received = [0, 2, 4] ∧
    ((World.after demoLimit 1 demoFilter scheduleC1).session 0).acks =
      [.SUCCESS, .BAD_REQUEST, .SUCCESS] ∧
    ((World.after demoLimit 1 demoFilter scheduleC1).session 0).acks.length =
      ((World.after demoLimit 1 demoFilter scheduleC1).session 0).received.length :=
  ⟨rfl, by decide, by decide,
    (C1_one_ack_per_message demoLimit 1 demoFilter scheduleC1 (World.after demoLimit 1 demoFilter scheduleC1) 0
      ((World.after demoLimit 1 demoFilter scheduleC1).session 0) rfl rfl rfl rfl).2.1⟩

theorem queues_iff (a : Action) : a.queues = true ↔ a = .Accept ∨ a = .Reconfigure := by
  cases a <;> simp [Action.queues]

theorem refuses_iff (a : Action) : a.refuses = true ↔ a = .Reject ∨ a = .Forward := by
  cases a <;> simp [Action.refuses]

/-- C2.  In every reachable state in which the drainer of a session has
dequeued nothing (and the process was not aborted in that session), the queue
holds exactly the first `cap` messages classified `Accept` or `Reconfigure`,
where `cap` is the configured `queueSize`; the status passed to `Send` for such
a message is `SUCCESS` while fewer than `cap` of them came before it and
`SERVICE_UNAVAILABLE` from the `cap + 1`-th on (see `expectedAck`); while no
call has failed these statuses are the acknowledgments sent.  In particular
with capacity 1 and three messages classified `Accept`, `Accept`, `Reject` the
statuses are `SUCCESS`, `SERVICE_UNAVAILABLE`, `BAD_REQUEST`. -/
theorem C2_full_queue_is_unavailable (lim : Nat) (q : Int) (f : Envelope → Action) (es : List WEvent)
    (w : World) (i : Nat) (b : broadcaster) (hrun : (World.new lim q f).run es = some w)
    (hb : w.sessions[i]? = some b) (ha : b.receiver ≠ .aborted) (hd : b.dequeued = []) :
    (b.queue.cap : Int) = q ∧ b.queue.buf = b.inserted ∧
    b.inserted = (queued f b.received).take b.queue.cap ∧
    (∀ (j : Nat) (m : Envelope), b.received[j]? = some m → (f m).queues = true →
      b.sends[j]? = some (expectedAck f b.queue.cap b.received j)) ∧
    (b.receiver = .receiving → b.acks = b.sends) ∧
    (q = 1 → ∀ m1 m2 m3, b.received = [m1, m2, m3] → f m1 = .Accept → f m2 = .Accept →
      f m3 = .Reject → b.sends = [.SUCCESS, .SERVICE_UNAVAILABLE, .BAD_REQUEST]) := by
  obtain ⟨hg, hf, hq⟩ := reachable_good lim q f es w hrun
  have hgb := hg b (List.getElem?_mem hb)
  have hQ := hgb.quiet hd ha
  have hfa := hgb.inv.acked ha
  rw [hf] at hQ hfa
  have hcap : (b.queue.cap : Int) = q := by rw [← hq]; exact hgb.capacity
  have hpt : ∀ (j : Nat) (m : Envelope), b.received[j]? = some m → (f m).queues = true →
      b.sends[j]? = some (expectedAck f b.queue.cap b.received j) := by
    intro j m hm hqm
    obtain ⟨st, hst, _⟩ := forall₂_getElem? hfa j m hm
    rw [hst, hQ.statuses j m st hm hst hqm]
  refine ⟨hcap, ?_, hQ.filled, hpt, ?_, ?_⟩
  · simpa [hd] using hgb.inv.fifo.symm
  · intro hr; exact (hgb.inv.io_receiving hr).1.symm
  · intro hq1 m1 m2 m3 hrec h1 h2 h3
    have hc : b.queue.cap = 1 := by rw [hq1] at hcap; exact_mod_cast hcap
    have hlen := hfa.length_eq
    have e0 := hpt 0 m1 (by simp [hrec]) (by simp [h1, Action.queues])
    have e1 := hpt 1 m2 (by simp [hrec]) (by simp [h2, Action.queues])
    obtain ⟨st, e2, a2⟩ := forall₂_getElem? hfa 2 m3 (by simp [hrec])
    have hst : st = .BAD_REQUEST := by
      simpa [AckFor, h3, Action.queues, Action.refuses] using a2
    rw [hrec] at hlen e0 e1
    simp only [expectedAck, hc, queued] at e0 e1
    simp [h1, Action.queues] at e0 e1
    match hs : b.sends, hlen with
    | [x, y, z], _ =>
      rw [hs] at e0 e1 e2
      simp at e0 e1 e2
      simp [e0, e1, e2, hst]

theorem C2_witness :
    (World.new demoLimit 1 demoFilter).run scheduleC2 = some (World.after demoLimit 1 demoFilter scheduleC2) ∧
    ((World.after demoLimit 1 demoFilter scheduleC2).session 0).acks =
      [.SUCCESS, .SERVICE_UNAVAILABLE, .BAD_REQUEST] ∧
    ((World.after demoLimit 1 demoFilter scheduleC2).session 0).queue.buf = [0] ∧
    ((World.after demoLimit 1 demoFilter scheduleC2).session 0).sends =
      [.SUCCESS, .SERVICE_UNAVAILABLE, .BAD_REQUEST] :=
  ⟨rfl, by decide, by decide,
    (C2_full_queue_is_unavailable demoLimit 1 demoFilter scheduleC2 (World.after demoLimit 1 demoFilter scheduleC2) 0
      ((World.after demoLimit 1 demoFilter scheduleC2).session 0) rfl rfl (by decide) (by decide)).2.2.2.2.2
      rfl 0 4 2 (by decide) (by decide) (by decide) (by decide)⟩

/-- C3.  In every reachable state, each message in the queue of a session,
held by its drainer or already passed to `Target.Enqueue` was classified
`Accept` or `Reconfigure`; and from a live state in which the session is in
its receive loop, receiving a message classified `Reject` or `Forward` passes
`BAD_REQUEST` to `Send` (it is the acknowledgment when that send succeeds) and
leaves the queue, the drainer and the logs of inserted, dequeued and submitted
messages unchanged. -/
theorem C3_refused_never_queued (lim : Nat) (q : Int) (f : Envelope → Action) (es : List WEvent)
    (w : World) (i : Nat) (b : broadcaster) (hrun : (World.new lim q f).run es = some w)
    (hlive : w.dead = false) (hb : w.sessions[i]? = some b) :
    (∀ m, m ∈ b.queue.buf ∨ m ∈ b.drainer.held ∨ m ∈ b.sunk →
      f m = .Accept ∨ f m = .Reconfigure) ∧
    (∀ msg se, b.receiver = .receiving → f msg = .Reject ∨ f msg = .Forward →
      ∃ w1 b1, w.step (.sess i (.recv (.ok msg) se)) = some w1 ∧
        w1.sessions[i]? = some b1 ∧ b1.sends = b.sends ++ [.BAD_REQUEST] ∧
        (se = none → b1.acks = b.acks ++ [.BAD_REQUEST]) ∧ b1.queue = b.queue ∧
        b1.drainer = b.drainer ∧ b1.inserted = b.inserted ∧ b1.dequeued = b.dequeued ∧
        b1.sunk = b.sunk) := by
  obtain ⟨hg, hf, _⟩ := reachable_good lim q f es w hrun
  have hgb := hg b (List.getElem?_mem hb)
  constructor
  · intro m hm
    have hin : m ∈ b.inserted := by
      rw [hgb.inv.fifo, hgb.inv.held]
      simp only [List.mem_append]
      tauto
    have := hgb.inv.classified m hin
    rw [hf] at this
    exact (queues_iff _).mp this
  · intro msg se hr hc
    have hrf : (w.bs.filters msg).refuses = true := by rw [hf]; exact (refuses_iff _).mpr hc
    have hu : w.bs.filters msg ≠ .Unknown := by
      rw [hf]; rcases hc with h | h <;> simp [h]
    obtain ⟨b1, st, h1, _, _, _, h5, h6, _, h8, h9, _⟩ :=
      queueEnvelopes_ok w.bs b msg se hr (Good.is_open _ b hgb hr) hu
    obtain ⟨hst, c1, c2, c3, c4⟩ := h9 hrf
    subst hst
    have hstep : b.step w.bs (.recv (.ok msg) se) = some b1 := by
      rw [live_step w b hlive (List.getElem?_mem hb)]; exact h1
    obtain ⟨w1, hw1, hb1, _⟩ := World.step_sess w i _ b b1 hlive hb hstep
    refine ⟨w1, b1, hw1, hb1, h5, ?_, c1, c2, c3, c4, h6⟩
    intro hse; subst hse; exact h8

theorem C3_witness :
    (World.new demoLimit 2 demoFilter).run scheduleC3 = some (World.after demoLimit 2 demoFilter scheduleC3) ∧
    ((World.after demoLimit 2 demoFilter scheduleC3).session 0).acks = [.SUCCESS, .BAD_REQUEST] ∧
    (∀ m, m ∈ ((World.after demoLimit 2 demoFilter scheduleC3).session 0).queue.buf ∨
        m ∈ ((World.after demoLimit 2 demoFilter scheduleC3).session 0).drainer.held ∨
        m ∈ ((World.after demoLimit 2 demoFilter scheduleC3).session 0).sunk →
      demoFilter m = .Accept ∨ demoFilter m = .Reconfigure) :=
  ⟨rfl, by decide,
    (C3_refused_never_queued demoLimit 2 demoFilter scheduleC3 (World.after demoLimit 2 demoFilter scheduleC3) 0
      ((World.after demoLimit 2 demoFilter scheduleC3).session 0) rfl rfl rfl).1⟩

theorem World.step_sess_none (w : World) (i : Nat) (e : Event) (b : broadcaster)
    (hb : w.sessions[i]? = some b) (h : b.step w.bs e = none) :
    w.step (.sess i e) = none := by
  unfold World.step
  split
  · rfl
  · simp [hb, h]

/-- C4.  In every reachable state of a live process, for every session:
while no stream call has failed, every received message has been acknowledged
(`K - 1` acknowledgments after `K - 1` receives), a failing `Recv` makes
`queueEnvelopes` return that error with no further send, and a failing `Send`
makes it return that send error with the acknowledgments unchanged; once it
has returned `e`, either the last `Recv` failed (one more `Recv` call than
messages, as many acknowledgments as messages) or the last `Send` failed (as
many `Send` calls as messages, one acknowledgment less), the deferred close
runs and `Handle` returns `e`, no receive step is possible, and along every
further run the result stays `e` and no `Recv` or `Send` is performed. -/
theorem C4_first_error_is_returned (lim : Nat) (q : Int) (f : Envelope → Action) (es : List WEvent)
    (w : World) (i : Nat) (b : broadcaster) (hrun : (World.new lim q f).run es = some w)
    (hlive : w.dead = false) (hb : w.sessions[i]? = some b) :
    (b.receiver = .receiving →
      b.recvCalls = b.received.length ∧ b.sends = b.acks ∧
      b.acks.length = b.received.length ∧
      (∀ e se, ∃ w1 b1, w.step (.sess i (.recv (.error e) se)) = some w1 ∧
        w1.sessions[i]? = some b1 ∧ b1.receiver = .returning e ∧
        b1.recvCalls = b.recvCalls + 1 ∧ b1.received = b.received ∧ b1.sends = b.sends ∧
        b1.acks = b.acks) ∧
      (∀ msg e, f msg ≠ .Unknown → ∃ w1 b1 st,
        w.step (.sess i (.recv (.ok msg) (some e))) = some w1 ∧
        w1.sessions[i]? = some b1 ∧ b1.receiver = .returning e ∧
        b1.recvCalls = b.recvCalls + 1 ∧ b1.received = b.received ++ [msg] ∧
        b1.sends = b.sends ++ [st] ∧ b1.acks = b.acks)) ∧
    (∀ e, b.receiver = .returning e ∨ b.receiver = .returned e →
      ((b.recvCalls = b.received.length + 1 ∧ b.sends = b.acks ∧
          b.acks.length = b.received.length) ∨
        (b.recvCalls = b.received.length ∧ b.acks.length + 1 = b.received.length ∧
          ∃ st, b.sends = b.acks ++ [st])) ∧
      (b.receiver = .returning e → ∃ w1 b1, w.step (.sess i .close) = some w1 ∧
        w1.sessions[i]? = some b1 ∧ b1.receiver = .returned e) ∧
      (∀ r se, w.step (.sess i (.recv r se)) = none) ∧
      (∀ es1 w1, w.run es1 = some w1 → ∃ b1, w1.sessions[i]? = some b1 ∧
        (b1.receiver = .returning e ∨ b1.receiver = .returned e) ∧
        b1.recvCalls = b.recvCalls ∧ b1.received = b.received ∧ b1.sends = b.sends ∧
        b1.acks = b.acks)) := by
  obtain ⟨hg, hf, _⟩ := reachable_good lim q f es w hrun
  have hmem := List.getElem?_mem hb
  have hgb := hg b hmem
  constructor
  · intro hr
    have hna : b.receiver ≠ .aborted := by simp [hr]
    obtain ⟨hsa, hrc⟩ := hgb.inv.io_receiving hr
    have hlen := (hgb.inv.acked hna).length_eq
    refine ⟨hrc, hsa, by rw [← hsa]; exact hlen.symm, ?_, ?_⟩
    · intro e se
      have hstep : b.step w.bs (.recv (.error e) se) =
          some { b with recvCalls := b.recvCalls + 1, receiver := .returning e } := by
        rw [live_step w b hlive hmem]; exact queueEnvelopes_error w.bs b e se hr
      obtain ⟨w1, hw1, hb1, _⟩ := World.step_sess w i _ b _ hlive hb hstep
      exact ⟨w1, _, hw1, hb1, rfl, rfl, rfl, rfl, rfl⟩
    · intro msg e hu
      obtain ⟨b1, st, h1, _, h3, h4, h5, _, h7, h8, _⟩ :=
        queueEnvelopes_ok w.bs b msg (some e) hr (Good.is_open _ b hgb hr)
          (by rw [hf]; exact hu)
      have hstep : b.step w.bs (.recv (.ok msg) (some e)) = some b1 := by
        rw [live_step w b hlive hmem]; exact h1
      obtain ⟨w1, hw1, hb1, _⟩ := World.step_sess w i _ b b1 hlive hb hstep
      exact ⟨w1, b1, st, hw1, hb1, h7, h3, h4, h5, h8⟩
  · intro e he
    have hna : b.receiver ≠ .aborted := by rcases he with h | h <;> simp [h]
    have hlen := (hgb.inv.acked hna).length_eq
    refine ⟨?_, ?_, ?_, ?_⟩
    · rcases hgb.inv.io_failed e he with ⟨h1, h2⟩ | ⟨st, h1, h2⟩
      · left; exact ⟨h2, h1, by rw [← h1]; exact hlen.symm⟩
      · right
        refine ⟨h2, ?_, st, h1⟩
        rw [h1] at hlen; simp at hlen; omega
    · intro hr
      have hstep : b.step w.bs .close = some
          { b with queue := { b.queue with closed := true }, receiver := .returned e,
                   drainer := if b.drainer = .parked then .returned .queueClosed
                              else b.drainer } := by
        rw [live_step w b hlive hmem]; simp [closeQueue, hr]
      obtain ⟨w1, hw1, hb1, _⟩ := World.step_sess w i _ b _ hlive hb hstep
      exact ⟨w1, _, hw1, hb1, rfl⟩
    · intro r se
      apply World.step_sess_none w i _ b hb
      rw [live_step w b hlive hmem]
      rcases he with h | h <;> simp [queueEnvelopes, h]
    · intro es1 w1 h1
      obtain ⟨b1, hb1, hs⟩ := run_staysFailed es1 w w1 h1 i b hb
      exact ⟨b1, hb1, hs e he⟩

theorem C4_witness :
    (World.new demoLimit 3 demoFilter).run scheduleC4 = some (World.after demoLimit 3 demoFilter scheduleC4) ∧
    ((World.after demoLimit 3 demoFilter scheduleC4).session 0).receiver = .returned 7 ∧
    ((World.after demoLimit 3 demoFilter scheduleC4).session 0).recvCalls = 3 ∧
    ((World.after demoLimit 3 demoFilter scheduleC4).session 0).acks = [.SUCCESS, .BAD_REQUEST] ∧
    (∀ r se, (World.after demoLimit 3 demoFilter scheduleC4).step (.sess 0 (.recv r se)) = none) :=
  ⟨rfl, by decide, by decide, by decide,
    ((C4_first_error_is_returned demoLimit 3 demoFilter scheduleC4 (World.after demoLimit 3 demoFilter scheduleC4) 0
      ((World.after demoLimit 3 demoFilter scheduleC4).session 0) rfl rfl rfl).2 7
        (Or.inr (by decide))).2.2.1⟩

theorem successAcked_sublist (ms : List Envelope) (sts : List Status) :
    List.Sublist (successAcked ms sts) ms := by
  induction ms generalizing sts with
  | nil => simp [successAcked]
  | cons x xs ih =>
    cases sts with
    | nil => simp [successAcked]
    | cons a l =>
      by_cases ha : a = .SUCCESS
      · simp only [successAcked, ha, if_true]; exact (ih l).cons₂ x
      · simp only [successAcked, ha, if_false]; exact (ih l).cons x

theorem successAcked_replicate (ms : List Envelope) :
    successAcked ms (List.replicate ms.length .SUCCESS) = ms := by
  induction ms with
  | nil => simp [successAcked]
  | cons x xs ih => simp [successAcked, List.replicate_succ, ih]

theorem forall₂_getElem?_right {α β : Type} {R : α → β → Prop} {as : List α} {bs : List β}
    (h : List.Forall₂ R as bs) (j : Nat) (b : β) (hb : bs[j]? = some b) :
    ∃ a, as[j]? = some a ∧ R a b := by
  induction h generalizing j with
  | nil => simp at hb
  | cons hab _ ih =>
    cases j with
    | zero => simp at hb; subst hb; exact ⟨_, by simp, hab⟩
    | succ k => simp at hb; simpa using ih k hb

/-- With room for every message, every queued message gets `SUCCESS`. -/
theorem all_success (f : Envelope → Action) (cap : Nat) (ms : List Envelope) (sts : List Status)
    (h : List.Forall₂ (AckFor f) ms sts) (hq : ∀ m ∈ ms, (f m).queues = true)
    (ho : ∀ j, sts[j]? = some .SERVICE_UNAVAILABLE → cap ≤ j) (hlen : ms.length ≤ cap) :
    sts = List.replicate ms.length .SUCCESS := by
  rw [List.eq_replicate_iff]
  refine ⟨h.length_eq.symm, ?_⟩
  intro st hst
  obtain ⟨j, hj⟩ := List.getElem?_of_mem hst
  obtain ⟨m, hm, ha⟩ := forall₂_getElem?_right h j st hj
  have hjl : j < sts.length := (List.getElem?_eq_some.mp hj).1
  have hqm := hq m (List.getElem?_mem hm)
  have hnr : (f m).refuses = false := by
    cases hfm : f m <;> simp [hfm, Action.queues, Action.refuses] at hqm ⊢
  rcases ha with ⟨_, h1 | h1⟩ | ⟨h2, _⟩
  · exact h1
  · subst h1
    have := ho j hj
    have := h.length_eq
    omega
  · rw [hnr] at h2; simp at h2

/-- C5.  In every reachable state, for every session: the messages passed to
`Target.Enqueue` are an initial segment of the messages inserted into the
queue; these are, in receipt order, exactly the received messages whose
status passed to `Send` was `SUCCESS` (the acknowledgments sent, while no call
has failed).  When the capacity is at least the number of received messages
and all of them are classified `Accept` or `Reconfigure` (capacity 10, five
`Accept`), every status is `SUCCESS`, every message is inserted, the target
has been given an initial segment of the received messages, and all of them
once the queue is empty and the drainer holds none. -/
theorem C5_sink_sees_queue_order (lim : Nat) (q : Int) (f : Envelope → Action) (es : List WEvent)
    (w : World) (i : Nat) (b : broadcaster) (hrun : (World.new lim q f).run es = some w)
    (hb : w.sessions[i]? = some b) :
    b.sunk <+: b.inserted ∧
    (b.receiver ≠ .aborted → b.inserted = successAcked b.received b.sends ∧
      List.Sublist b.inserted b.received) ∧
    (b.receiver = .receiving → b.sends = b.acks) ∧
    (b.receiver ≠ .aborted → b.received.length ≤ b.queue.cap →
      (∀ m ∈ b.received, f m = .Accept ∨ f m = .Reconfigure) →
      b.sends = List.replicate b.received.length .SUCCESS ∧ b.inserted = b.received ∧
      b.sunk <+: b.received ∧
      (b.queue.buf = [] → b.drainer.held = [] → b.sunk = b.received)) := by
  obtain ⟨hg, hf, _⟩ := reachable_good lim q f es w hrun
  have hgb := hg b (List.getElem?_mem hb)
  have hpre : b.sunk <+: b.inserted :=
    ⟨b.drainer.held ++ b.queue.buf, by rw [hgb.inv.fifo, hgb.inv.held]; simp⟩
  refine ⟨hpre, ?_, fun hr => (hgb.inv.io_receiving hr).1, ?_⟩
  · intro ha
    have h1 := hgb.inv.successes ha
    exact ⟨h1, by rw [h1]; exact successAcked_sublist _ _⟩
  · intro ha hlen hall
    have hfa := hgb.inv.acked ha
    rw [hf] at hfa
    have hs := all_success f b.queue.cap b.received b.sends hfa
      (fun m hm => (queues_iff _).mpr (hall m hm)) hgb.overflow hlen
    have hins : b.inserted = b.received := by
      rw [hgb.inv.successes ha, hs]
      exact successAcked_replicate _
    refine ⟨hs, hins, by rw [← hins]; exact hpre, ?_⟩
    intro hbuf hheld
    rw [← hins, hgb.inv.fifo, hgb.inv.held, hbuf, hheld]
    simp

theorem C5_witness :
    (World.new demoLimit 10 demoFilter).run scheduleC5 = some (World.after demoLimit 10 demoFilter scheduleC5) ∧
    ((World.after demoLimit 10 demoFilter scheduleC5).session 0).acks =
      [.SUCCESS, .SUCCESS, .SUCCESS, .SUCCESS, .SUCCESS] ∧
    ((World.after demoLimit 10 demoFilter scheduleC5).session 0).sunk = [0, 4, 8, 12, 16] ∧
    ((World.after demoLimit 10 demoFilter scheduleC5).session 0).sunk <+:
      ((World.after demoLimit 10 demoFilter scheduleC5).session 0).inserted :=
  ⟨rfl, by decide, by decide,
    (C5_sink_sees_queue_order demoLimit 10 demoFilter scheduleC5 (World.after demoLimit 10 demoFilter scheduleC5) 0
      ((World.after demoLimit 10 demoFilter scheduleC5).session 0) rfl rfl).1⟩

theorem World.step_sess_live (w : World) (i : Nat) (e : Event) (b b1 : broadcaster)
    (hlive : w.dead = false) (hb : w.sessions[i]? = some b) (h : b.step w.bs e = some b1)
    (hr : b1.receiver ≠ .aborted) :
    ∃ w1, w.step (.sess i e) = some w1 ∧ w1.sessions[i]? = some b1 ∧ w1.dead = false := by
  have hi : i < w.sessions.length := (List.getElem?_eq_some.mp hb).1
  refine ⟨{ w with sessions := w.sessions.set i b1 }, ?_, ?_, ?_⟩
  · simp [World.step, hlive, hb, h]
  · simp [List.getElem?_set, hi]
  · simp only [World.dead, List.any_eq_false, decide_eq_true_eq] at hlive ⊢
    intro x hx
    rcases List.mem_or_eq_of_mem_set hx with hx | hx
    · exact hlive x hx
    · rw [hx]; exact hr

/-- Once the queue is closed, a drainer at its `select` that is scheduled, with
a target that accepts, passes every buffered message on and returns through
the closed-queue branch. -/
theorem drainSchedule_run (i : Nat) (n : Nat) (w : World) (b : broadcaster)
    (hlive : w.dead = false) (hb : w.sessions[i]? = some b) (hd : b.drainer = .selecting)
    (hc : b.queue.closed = true) (hn : b.queue.buf.length = n) :
    ∃ w1 b1, w.run (drainSchedule i n) = some w1 ∧ w1.sessions[i]? = some b1 ∧
      b1.drainer = .returned .queueClosed ∧ b1.queue.buf = [] ∧
      b1.sunk = b.sunk ++ b.queue.buf ∧ b1.acks = b.acks ∧ b1.received = b.received := by
  have hmem := List.getElem?_mem hb
  induction n generalizing w b with
  | zero =>
    have hbuf : b.queue.buf = [] := List.length_eq_zero.mp hn
    have hstep : b.step w.bs (.drain .queue) =
        some { b with drainer := .returned .queueClosed } := by
      rw [live_step w b hlive hmem]; simp [drainQueue, hd, hbuf, hc]
    obtain ⟨w1, hw1, hb1, _⟩ := World.step_sess w i _ b _ hlive hb hstep
    refine ⟨w1, _, ?_, hb1, rfl, hbuf, ?_, rfl, rfl⟩
    · simp [drainSchedule, World.run, hw1]
    · simp [hbuf]
  | succ k ih =>
    match hbuf : b.queue.buf, hn with
    | m :: rest, hn =>
      have hna : b.receiver ≠ .aborted := by
        intro hx
        simp only [World.dead, List.any_eq_false, decide_eq_true_eq] at hlive
        exact hlive b hmem hx
      have hstep1 : b.step w.bs (.drain .queue) = some
          { b with queue := { b.queue with buf := rest }, dequeued := b.dequeued ++ [m],
                   drainer := .holding m } := by
        rw [live_step w b hlive hmem]; simp [drainQueue, hd, hbuf]
      obtain ⟨w1, hw1, hb1, hl1⟩ := World.step_sess_live w i _ b _ hlive hb hstep1 hna
      have hstep2 : broadcaster.step w1.bs
          { b with queue := { b.queue with buf := rest }, dequeued := b.dequeued ++ [m],
                   drainer := .holding m } (.enqueue true) = some
          { b with queue := { b.queue with buf := rest }, dequeued := b.dequeued ++ [m],
                   drainer := .selecting, sunk := b.sunk ++ [m] } := by
        rw [live_step w1 _ hl1 (List.getElem?_mem hb1)]; simp [targetEnqueue]
      obtain ⟨w2, hw2, hb2, hl2⟩ := World.step_sess_live w1 i _ _ _ hl1 hb1 hstep2 hna
      obtain ⟨w3, b3, h3, hb3, c1, c2, c3, c4, c5⟩ :=
        ih w2 _ hl2 hb2 rfl hc (by simpa using hn) (List.getElem?_mem hb2)
      refine ⟨w3, b3, ?_, hb3, c1, c2, ?_, c4, c5⟩
      · simp [drainSchedule, World.run, hw1, hw2, h3]
      · simp [c3]

theorem successAcked_append_left (ms xs : List Envelope) (sts : List Status)
    (h : ms.length = sts.length) : successAcked (ms ++ xs) sts = successAcked ms sts := by
  induction ms generalizing sts with
  | nil =>
    cases sts with
    | nil => cases xs <;> simp [successAcked]
    | cons a l => simp at h
  | cons x ms ih =>
    cases sts with
    | nil => simp at h
    | cons a l =>
      have hl : ms.length = l.length := by simpa using h
      by_cases ha : a = .SUCCESS <;> simp [successAcked, ha, ih l hl]

/-- C6, as stated, fails: it is not true that, the shutdown signal not fired
and the drainer returned through the closed-queue branch (so after no
refusal), the messages passed to `Target.Enqueue` are the messages that were
acknowledged `SUCCESS`.  After `failedSendC6` the target has been given
messages 0 and 4, and the only acknowledgment sent is the `SUCCESS` of
message 0. -/
theorem C6_counterexample :
    ¬ (∀ (lim : Nat) (q : Int) (f : Envelope → Action) (es : List WEvent) (w : World) (i : Nat)
        (b : broadcaster), (World.new lim q f).run es = some w → w.sessions[i]? = some b →
        w.bs.exitChan.closed = false → b.drainer = .returned .queueClosed →
        b.sunk = successAcked b.received b.acks) := by
  intro h
  have h1 := h demoLimit 2 demoFilter failedSendC6 (World.after demoLimit 2 demoFilter failedSendC6)
    0 ((World.after demoLimit 2 demoFilter failedSendC6).session 0) rfl rfl (by decide)
    (by decide)
  revert h1
  decide

/-- C6, amended.  In every reachable state of a live process, for every session: the
deferred close keeps the buffered messages; a drainer at its `select` with a
message in the buffer, closed or not, can only receive that message from the
queue case (`ok = true`), never the closed-queue return; and when the drainer
has returned through the closed-queue branch, the queue is closed and empty,
`Handle` has returned, and the messages passed to `Target.Enqueue` are all the
messages inserted into the queue, which are the received messages whose status
passed to `Send` was `SUCCESS`: they are the messages acknowledged `SUCCESS`
when every `Send` returned `nil`, and otherwise, the last `Send` of the
session having failed, the messages acknowledged `SUCCESS` followed by the
last received message if the status of that failed `Send` was `SUCCESS`.
Such a return is reached: once
`Handle` has returned, a drainer at its `select` that keeps being scheduled,
with a target that accepts, submits every message left in the queue and
returns through the closed-queue branch (`drainSchedule`). -/
theorem C6_close_keeps_queued_messages (lim : Nat) (q : Int) (f : Envelope → Action) (es : List WEvent)
    (w : World) (i : Nat) (b : broadcaster) (hrun : (World.new lim q f).run es = some w)
    (hlive : w.dead = false) (hb : w.sessions[i]? = some b) :
    (∀ e, b.receiver = .returning e → ∃ w1 b1, w.step (.sess i .close) = some w1 ∧
      w1.sessions[i]? = some b1 ∧ b1.receiver = .returned e ∧ b1.queue.closed = true ∧
      b1.queue.buf = b.queue.buf ∧ b1.inserted = b.inserted ∧ b1.dequeued = b.dequeued ∧
      b1.sunk = b.sunk) ∧
    (∀ m rest, b.drainer = .selecting → b.queue.buf = m :: rest →
      ∃ w1 b1, w.step (.sess i (.drain .queue)) = some w1 ∧ w1.sessions[i]? = some b1 ∧
        b1.drainer = .holding m ∧ b1.queue.buf = rest ∧ b1.dequeued = b.dequeued ++ [m]) ∧
    (b.drainer = .returned .queueClosed →
      b.queue.buf = [] ∧ b.queue.closed = true ∧ (∃ e, b.receiver = .returned e) ∧
      b.sunk = b.inserted ∧ b.sunk = successAcked b.received b.sends ∧
      ((b.sends = b.acks ∧ b.sunk = successAcked b.received b.acks) ∨
        ∃ st m rcv, b.sends = b.acks ++ [st] ∧ b.received = rcv ++ [m] ∧
          b.sunk = successAcked b.received b.acks ++ (if st = .SUCCESS then [m] else []))) ∧
    (∀ e, b.receiver = .returned e → b.drainer = .selecting →
      ∃ w1 b1, w.run (drainSchedule i b.queue.buf.length) = some w1 ∧
        w1.sessions[i]? = some b1 ∧ b1.drainer = .returned .queueClosed ∧
        b1.sunk = b.inserted ∧ b1.acks = b.acks ∧ b1.received = b.received) := by
  obtain ⟨hg, hf, _⟩ := reachable_good lim q f es w hrun
  have hmem := List.getElem?_mem hb
  have hgb := hg b hmem
  refine ⟨?_, ?_, ?_, ?_⟩
  · intro e hr
    have hstep : b.step w.bs .close = some
        { b with queue := { b.queue with closed := true }, receiver := .returned e,
                 drainer := if b.drainer = .parked then .returned .queueClosed
                            else b.drainer } := by
      rw [live_step w b hlive hmem]; simp [closeQueue, hr]
    obtain ⟨w1, hw1, hb1, _⟩ := World.step_sess w i _ b _ hlive hb hstep
    exact ⟨w1, _, hw1, hb1, rfl, rfl, rfl, rfl, rfl, rfl⟩
  · intro m rest hd hbuf
    have hstep : b.step w.bs (.drain .queue) = some
        { b with queue := { b.queue with buf := rest }, dequeued := b.dequeued ++ [m],
                 drainer := .holding m } := by
      rw [live_step w b hlive hmem]; simp [drainQueue, hd, hbuf]
    obtain ⟨w1, hw1, hb1, _⟩ := World.step_sess w i _ b _ hlive hb hstep
    exact ⟨w1, _, hw1, hb1, rfl, rfl, rfl⟩
  · intro hd
    obtain ⟨h1, h2⟩ := hgb.inv.closed_exit hd
    obtain ⟨e, he⟩ := hgb.inv.closed_iff.mp h2
    have hsi : b.sunk = b.inserted := by
      rw [hgb.inv.fifo, hgb.inv.held, h1, hd]; simp [DrainerPC.held]
    refine ⟨h1, h2, ⟨e, he⟩, hsi, ?_, ?_⟩
    · rw [hsi]
      exact hgb.inv.successes (by simp [he])
    · have hna : b.receiver ≠ .aborted := by simp [he]
      have hsucc := hgb.inv.successes hna
      rcases hgb.inv.io_failed e (Or.inr he) with ⟨h3, _⟩ | ⟨st, h3, _⟩
      · left
        exact ⟨h3, by rw [hsi, hsucc, h3]⟩
      · right
        have hlen := (hgb.inv.acked hna).length_eq
        rw [h3] at hlen
        have hne : b.received ≠ [] := by
          intro hc; rw [hc] at hlen; simp at hlen
        obtain ⟨rcv, m, hrcv⟩ : ∃ rcv m, b.received = rcv ++ [m] :=
          ⟨_, _, (List.dropLast_append_getLast hne).symm⟩
        have hl : rcv.length = b.acks.length := by
          rw [hrcv] at hlen; simp at hlen; omega
        refine ⟨st, m, rcv, h3, hrcv, ?_⟩
        rw [hsi, hsucc, h3, hrcv, successAcked_snoc _ _ _ _ hl,
          successAcked_append_left _ _ _ hl]
  · intro e he hd
    have hc : b.queue.closed = true := hgb.inv.closed_iff.mpr ⟨e, he⟩
    obtain ⟨w1, b1, h1, hb1, c1, _, c3, c4, c5⟩ :=
      drainSchedule_run i b.queue.buf.length w b hlive hb hd hc rfl
    refine ⟨w1, b1, h1, hb1, c1, ?_, c4, c5⟩
    rw [c3, hgb.inv.fifo, hgb.inv.held, hd]
    simp [DrainerPC.held]

theorem C6_witness :
    (World.new demoLimit 2 demoFilter).run scheduleC6 = some (World.after demoLimit 2 demoFilter scheduleC6) ∧
    ((World.after demoLimit 2 demoFilter scheduleC6).session 0).drainer = .returned .queueClosed ∧
    ((World.after demoLimit 2 demoFilter scheduleC6).session 0).acks = [.SUCCESS, .SUCCESS] ∧
    ((World.after demoLimit 2 demoFilter scheduleC6).session 0).sunk = [0, 4] ∧
    ((World.after demoLimit 2 demoFilter scheduleC6).session 0).sunk =
      ((World.after demoLimit 2 demoFilter scheduleC6).session 0).inserted :=
  ⟨rfl, by decide, by decide, by decide,
    ((C6_close_keeps_queued_messages demoLimit 2 demoFilter scheduleC6
      (World.after demoLimit 2 demoFilter scheduleC6) 0
      ((World.after demoLimit 2 demoFilter scheduleC6).session 0) rfl rfl rfl).2.2.1 (by decide)).2.2.2.1⟩

/-- C7.  In every reachable state in which the drainer of a session has
returned because `Target.Enqueue` refused `m`: `m` is the last message passed
to the target, no step of the drainer is possible, and along every further
run, whatever the receiver inserts, the drainer stays returned and the logs of
dequeued and submitted messages do not change. -/
theorem C7_no_submit_after_refusal (lim : Nat) (q : Int) (f : Envelope → Action) (es : List WEvent)
    (w : World) (i : Nat) (b : broadcaster) (m : Envelope)
    (hrun : (World.new lim q f).run es = some w) (hb : w.sessions[i]? = some b)
    (hd : b.drainer = .returned (.refused m)) :
    b.sunk.getLast? = some m ∧
    (∀ br, w.step (.sess i (.drain br)) = none) ∧
    (∀ ok, w.step (.sess i (.enqueue ok)) = none) ∧
    (∀ es1 w1, w.run es1 = some w1 → ∃ b1, w1.sessions[i]? = some b1 ∧
      b1.drainer = .returned (.refused m) ∧ b1.dequeued = b.dequeued ∧ b1.sunk = b.sunk ∧
      b1.sunk.getLast? = some m) := by
  obtain ⟨hg, _, _⟩ := reachable_good lim q f es w hrun
  have hgb := hg b (List.getElem?_mem hb)
  have hlast := hgb.inv.refused_last m hd
  refine ⟨hlast, ?_, ?_, ?_⟩
  · intro br
    apply World.step_sess_none w i _ b hb
    unfold broadcaster.step
    split
    · rfl
    · simp [drainQueue, hd]
  · intro ok
    apply World.step_sess_none w i _ b hb
    unfold broadcaster.step
    split
    · rfl
    · simp [targetEnqueue, hd]
  · intro es1 w1 h1
    obtain ⟨b1, hb1, hs⟩ := run_staysOver es1 w w1 h1 i b hb
    obtain ⟨s1, s2, s3⟩ := hs _ hd
    exact ⟨b1, hb1, s1, s2, s3, by rw [s3]; exact hlast⟩

theorem C7_witness :
    (World.new demoLimit 2 demoFilter).run scheduleC7 = some (World.after demoLimit 2 demoFilter scheduleC7) ∧
    ((World.after demoLimit 2 demoFilter scheduleC7).session 0).drainer = .returned (.refused 0) ∧
    (World.after demoLimit 2 demoFilter scheduleC7).run laterC7 =
      some (World.after demoLimit 2 demoFilter (scheduleC7 ++ laterC7)) ∧
    ((World.after demoLimit 2 demoFilter (scheduleC7 ++ laterC7)).session 0).queue.buf = [4, 8] ∧
    (∃ b1, (World.after demoLimit 2 demoFilter (scheduleC7 ++ laterC7)).sessions[0]? = some b1 ∧
      b1.drainer = .returned (.refused 0) ∧
      b1.dequeued = ((World.after demoLimit 2 demoFilter scheduleC7).session 0).dequeued ∧
      b1.sunk = ((World.after demoLimit 2 demoFilter scheduleC7).session 0).sunk ∧
      b1.sunk.getLast? = some 0) :=
  ⟨rfl, by decide, rfl, by decide,
    (C7_no_submit_after_refusal demoLimit 2 demoFilter scheduleC7 (World.after demoLimit 2 demoFilter scheduleC7) 0
      ((World.after demoLimit 2 demoFilter scheduleC7).session 0) 0 rfl rfl (by decide)).2.2.2
      laterC7 (World.after demoLimit 2 demoFilter (scheduleC7 ++ laterC7)) rfl⟩

/-- C8.  In every reachable state of a live process, for every session: when
`Target.Enqueue` returns `false` the drainer returns and nothing the receiver
owns changes (its control point, its logs, the queue); and in every state
after such a refusal in which the session is in its receive loop, a message of
a named action is received and answered with exactly one acknowledgment by the
same mapping, the session stays in the loop and the drainer stays returned:
`BAD_REQUEST` for `Reject`/`Forward`, and for `Accept`/`Reconfigure`
`SUCCESS` with the message appended to the buffer when the buffer holds fewer
than `cap` messages, `SERVICE_UNAVAILABLE` otherwise. -/
theorem C8_refusal_leaves_receiver_running (lim : Nat) (q : Int) (f : Envelope → Action)
    (es : List WEvent) (w : World) (i : Nat) (b : broadcaster)
    (hrun : (World.new lim q f).run es = some w) (hlive : w.dead = false)
    (hb : w.sessions[i]? = some b) :
    (∀ msg, b.drainer = .holding msg → ∃ w1 b1, w.step (.sess i (.enqueue false)) = some w1 ∧
      w1.sessions[i]? = some b1 ∧ b1.drainer = .returned (.refused msg) ∧
      b1.receiver = b.receiver ∧ b1.queue = b.queue ∧ b1.recvCalls = b.recvCalls ∧
      b1.received = b.received ∧ b1.sends = b.sends ∧ b1.acks = b.acks ∧
      b1.inserted = b.inserted) ∧
    (∀ m0 msg, b.drainer = .returned (.refused m0) → b.receiver = .receiving →
      f msg ≠ .Unknown → ∃ w1 b1 st,
        w.step (.sess i (.recv (.ok msg) none)) = some w1 ∧ w1.sessions[i]? = some b1 ∧
        b1.receiver = .receiving ∧ b1.drainer = .returned (.refused m0) ∧
        b1.received = b.received ++ [msg] ∧ b1.acks = b.acks ++ [st] ∧ AckFor f msg st ∧
        (f msg = .Reject ∨ f msg = .Forward → st = .BAD_REQUEST ∧ b1.queue = b.queue) ∧
        (f msg = .Accept ∨ f msg = .Reconfigure → b.queue.buf.length < b.queue.cap →
          st = .SUCCESS ∧ b1.queue.buf = b.queue.buf ++ [msg] ∧
          b1.inserted = b.inserted ++ [msg]) ∧
        (f msg = .Accept ∨ f msg = .Reconfigure → ¬ b.queue.buf.length < b.queue.cap →
          st = .SERVICE_UNAVAILABLE ∧ b1.queue = b.queue ∧ b1.inserted = b.inserted)) := by
  obtain ⟨hg, hf, _⟩ := reachable_good lim q f es w hrun
  have hmem := List.getElem?_mem hb
  have hgb := hg b hmem
  constructor
  · intro msg hd
    have hstep : b.step w.bs (.enqueue false) = some
        { b with sunk := b.sunk ++ [msg], drainer := .returned (.refused msg) } := by
      rw [live_step w b hlive hmem]; simp [targetEnqueue, hd]
    obtain ⟨w1, hw1, hb1, _⟩ := World.step_sess w i _ b _ hlive hb hstep
    exact ⟨w1, _, hw1, hb1, rfl, rfl, rfl, rfl, rfl, rfl, rfl, rfl⟩
  · intro m0 msg hd hr hu
    have hnp : b.drainer ≠ .parked := by simp [hd]
    obtain ⟨b1, st, h1, h2, _, h4, _, _, h7, h8, h9, h10, h11, _⟩ :=
      queueEnvelopes_ok w.bs b msg none hr (Good.is_open _ b hgb hr) (by rw [hf]; exact hu)
    rw [hf] at h2 h9 h10 h11
    have hstep : b.step w.bs (.recv (.ok msg) none) = some b1 := by
      rw [live_step w b hlive hmem]; exact h1
    obtain ⟨w1, hw1, hb1, _⟩ := World.step_sess w i _ b b1 hlive hb hstep
    have hdr : b1.drainer = .returned (.refused m0) := by
      obtain ⟨_, _, _, c4⟩ := queueEnvelopes_same w.bs b b1 _ none h1
      rcases c4 with ⟨c, _⟩ | ⟨c, _⟩
      · rw [c]; exact hd
      · exact absurd c hnp
    refine ⟨w1, b1, st, hw1, hb1, h7, hdr, h4, h8, h2, ?_, ?_, ?_⟩
    · intro hc
      obtain ⟨a1, a2, _⟩ := h9 ((refuses_iff _).mpr hc)
      exact ⟨a1, a2⟩
    · intro hc hl
      obtain ⟨a1, a2, _, a4, _⟩ := h10 ((queues_iff _).mpr hc) hnp hl
      exact ⟨a1, by rw [a2], a4⟩
    · intro hc hl
      obtain ⟨a1, a2, _, a4, _⟩ := h11 ((queues_iff _).mpr hc) hnp hl
      exact ⟨a1, a2, a4⟩

theorem C8_witness :
    (World.new demoLimit 2 demoFilter).run scheduleC8 = some (World.after demoLimit 2 demoFilter scheduleC8) ∧
    ((World.after demoLimit 2 demoFilter scheduleC8).session 0).drainer = .returned (.refused 0) ∧
    ((World.after demoLimit 2 demoFilter scheduleC8).session 0).receiver = .receiving ∧
    ((World.after demoLimit 2 demoFilter scheduleC8).session 0).acks =
      [.SUCCESS, .SUCCESS, .BAD_REQUEST, .SUCCESS] ∧
    (∃ w1 b1 st, (World.after demoLimit 2 demoFilter scheduleC8).step (.sess 0 (.recv (.ok 8) none)) =
        some w1 ∧ w1.sessions[0]? = some b1 ∧ b1.receiver = .receiving ∧
      b1.acks = ((World.after demoLimit 2 demoFilter scheduleC8).session 0).acks ++ [st] ∧
      st = .SERVICE_UNAVAILABLE) :=
  ⟨rfl, by decide, by decide, by decide,
    match (C8_refusal_leaves_receiver_running demoLimit 2 demoFilter scheduleC8
      (World.after demoLimit 2 demoFilter scheduleC8) 0
      ((World.after demoLimit 2 demoFilter scheduleC8).session 0) rfl rfl rfl).2 0 8 (by decide)
      (by decide) (by decide) with
    | ⟨w1, b1, st, h1, h2, h3, _, _, h6, _, _, _, h10⟩ =>
      ⟨w1, b1, st, h1, h2, h3, h6, (h10 (Or.inl (by decide)) (by decide)).1⟩⟩

/-- C9, as stated, fails: it is not true that after `exitChan` has been closed
a drainer dequeues nothing more and calls `Target.Enqueue` no more.  After
`scheduleC9` the signal has fired with message 0 in the queue, and `laterC9`
dequeues it and passes it to the target. -/
theorem C9_counterexample :
    ¬ (∀ (lim : Nat) (q : Int) (f : Envelope → Action) (es es1 : List WEvent) (w w1 : World) (i : Nat)
        (b b1 : broadcaster), (World.new lim q f).run es = some w →
        w.bs.exitChan.closed = true → w.sessions[i]? = some b → w.run es1 = some w1 →
        w1.sessions[i]? = some b1 → b1.dequeued = b.dequeued ∧ b1.sunk = b.sunk) := by
  intro h
  have h1 := h demoLimit 1 demoFilter scheduleC9 laterC9 (World.after demoLimit 1 demoFilter scheduleC9)
    (World.after demoLimit 1 demoFilter (scheduleC9 ++ laterC9)) 0
    ((World.after demoLimit 1 demoFilter scheduleC9).session 0)
    ((World.after demoLimit 1 demoFilter (scheduleC9 ++ laterC9)).session 0) rfl (by decide) rfl rfl rfl
  revert h1
  decide

/-- C9, amended.  In every reachable state of a live process, for every
session: closing `exitChan` makes a drainer blocked in its `select` return at
once and changes nothing else in the session; once `exitChan` is closed no
drainer is blocked, a drainer at its `select` can take the exit case whatever
the queue holds, returning with the queue and the logs of dequeued and
submitted messages unchanged, it cannot block, and when the queue is empty and
open the exit case is the only case it can take; and after a return through
the exit case nothing more is dequeued or passed to the target. -/
theorem C9_exit_case (lim : Nat) (q : Int) (f : Envelope → Action) (es : List WEvent)
    (w : World) (i : Nat) (b : broadcaster) (hrun : (World.new lim q f).run es = some w)
    (hlive : w.dead = false) (hb : w.sessions[i]? = some b) :
    (w.bs.exitChan.closed = false → ∃ w1, w.step .closeExit = some w1 ∧
      w1.bs.exitChan.closed = true ∧ w1.sessions[i]? = some (exitFired b) ∧
      (b.drainer = .parked → (exitFired b).drainer = .returned .exitChan) ∧
      (b.drainer ≠ .parked → exitFired b = b) ∧ (exitFired b).queue = b.queue ∧
      (exitFired b).dequeued = b.dequeued ∧ (exitFired b).sunk = b.sunk) ∧
    (w.bs.exitChan.closed = true → b.drainer ≠ .parked ∧
      (b.drainer = .selecting →
        (∃ w1 b1, w.step (.sess i (.drain .exit)) = some w1 ∧ w1.sessions[i]? = some b1 ∧
          b1.drainer = .returned .exitChan ∧ b1.queue = b.queue ∧
          b1.dequeued = b.dequeued ∧ b1.sunk = b.sunk) ∧
        w.step (.sess i (.drain .block)) = none ∧
        (b.queue.buf = [] → b.queue.closed = false →
          w.step (.sess i (.drain .queue)) = none))) ∧
    (b.drainer = .returned .exitChan → w.bs.exitChan.closed = true ∧
      ∀ es1 w1, w.run es1 = some w1 → ∃ b1, w1.sessions[i]? = some b1 ∧
        b1.drainer = .returned .exitChan ∧ b1.dequeued = b.dequeued ∧ b1.sunk = b.sunk) := by
  obtain ⟨hg, _, _⟩ := reachable_good lim q f es w hrun
  have hmem := List.getElem?_mem hb
  have hgb := hg b hmem
  refine ⟨?_, ?_, ?_⟩
  · intro hc
    refine ⟨{ w with bs := { w.bs with exitChan := { w.bs.exitChan with closed := true } },
                     sessions := w.sessions.map exitFired }, ?_, rfl, ?_, ?_, ?_, ?_⟩
    · simp [World.step, hlive, hc]
    · simp [hb]
    · intro hp; simp [exitFired, hp]
    · intro hp; simp [exitFired, hp]
    · obtain ⟨_, c2, c3, c4, _⟩ := exitFired_same b
      exact ⟨c2, c3, c4⟩
  · intro hc
    refine ⟨hgb.awake hc, ?_⟩
    intro hd
    refine ⟨?_, ?_, ?_⟩
    · have hstep : b.step w.bs (.drain .exit) = some { b with drainer := .returned .exitChan } := by
        rw [live_step w b hlive hmem]; simp [drainQueue, hd, hc]
      obtain ⟨w1, hw1, hb1, _⟩ := World.step_sess w i _ b _ hlive hb hstep
      exact ⟨w1, _, hw1, hb1, rfl, rfl, rfl, rfl⟩
    · apply World.step_sess_none w i _ b hb
      rw [live_step w b hlive hmem]; simp [drainQueue, hd, hc]
    · intro hbuf hopen
      apply World.step_sess_none w i _ b hb
      rw [live_step w b hlive hmem]; simp [drainQueue, hd, hbuf, hopen]
  · intro hd
    refine ⟨hgb.exit_seen hd, ?_⟩
    intro es1 w1 h1
    obtain ⟨b1, hb1, hs⟩ := run_staysOver es1 w w1 h1 i b hb
    exact ⟨b1, hb1, hs _ hd⟩

theorem C9_witness :
    (World.new demoLimit 1 demoFilter).run scheduleC9 = some (World.after demoLimit 1 demoFilter scheduleC9) ∧
    (World.after demoLimit 1 demoFilter scheduleC9).bs.exitChan.closed = true ∧
    ((World.after demoLimit 1 demoFilter scheduleC9).session 0).queue.buf = [0] ∧
    (∃ w1 b1, (World.after demoLimit 1 demoFilter scheduleC9).step (.sess 0 (.drain .exit)) = some w1 ∧
      w1.sessions[0]? = some b1 ∧ b1.drainer = .returned .exitChan ∧
      b1.queue = ((World.after demoLimit 1 demoFilter scheduleC9).session 0).queue ∧
      b1.dequeued = ((World.after demoLimit 1 demoFilter scheduleC9).session 0).dequeued ∧
      b1.sunk = ((World.after demoLimit 1 demoFilter scheduleC9).session 0).sunk) :=
  ⟨rfl, by decide, by decide,
    (((C9_exit_case demoLimit 1 demoFilter scheduleC9 (World.after demoLimit 1 demoFilter scheduleC9) 0
      ((World.after demoLimit 1 demoFilter scheduleC9).session 0) rfl rfl rfl).2.1 (by decide)).2
        (by decide)).1⟩

/-- C10, as stated, fails: it is not true that closing the shutdown signal
that stops the drainer of one session leaves the drainer of every other
session of the handler as it was.  After `scheduleC10` the one `exitChan` of
the handler is closed, and the drainers of both sessions return. -/
theorem C10_counterexample :
    ¬ (∀ (lim : Nat) (q : Int) (f : Envelope → Action) (es : List WEvent) (w w1 : World) (i j : Nat)
        (a a1 b b1 : broadcaster), (World.new lim q f).run es = some w → i ≠ j →
        w.sessions[i]? = some a → w.sessions[j]? = some b → w.step .closeExit = some w1 →
        w1.sessions[i]? = some a1 → w1.sessions[j]? = some b1 →
        a1.drainer = .returned .exitChan → b1.drainer = b.drainer) := by
  intro h
  have h1 := h demoLimit 1 demoFilter scheduleC10 (World.after demoLimit 1 demoFilter scheduleC10)
    (World.after demoLimit 1 demoFilter (scheduleC10 ++ [WEvent.closeExit])) 0 1
    ((World.after demoLimit 1 demoFilter scheduleC10).session 0)
    ((World.after demoLimit 1 demoFilter (scheduleC10 ++ [WEvent.closeExit])).session 0)
    ((World.after demoLimit 1 demoFilter scheduleC10).session 1)
    ((World.after demoLimit 1 demoFilter (scheduleC10 ++ [WEvent.closeExit])).session 1)
    rfl (by decide) rfl rfl rfl rfl rfl (by decide)
  revert h1
  decide

/-- C10, amended.  In every reachable state of a live process the handler has
the `queueSize` given to `NewHandlerImpl`; when it is a size that `make`
accepts, neither negative nor above the channel size limit `lim` of the
runtime, a call of `Handle` adds one session whose queue is new, empty, open
and of capacity `queueSize` and leaves the handler, its `exitChan` included,
and the other sessions as they are (with any other `queueSize` the call
panics and adds no session); the queue of every session has that capacity; a step of one session changes neither the
handler nor any other session; but `exitChan` belongs to the handler: closing
it is seen by every session (a blocked drainer of any session returns) and,
once it is closed, the drainer of every session at its `select` can take the
exit case. -/
theorem C10_fresh_queue_shared_exitChan (lim : Nat) (q : Int) (f : Envelope → Action)
    (es : List WEvent) (w : World) (hrun : (World.new lim q f).run es = some w)
    (hlive : w.dead = false) :
    w.bs.queueSize = q ∧
    (0 ≤ q → q ≤ (lim : Int) → ∃ w1 b, w.step .handle = some w1 ∧
      w1.sessions = w.sessions ++ [b] ∧ w1.bs = w.bs ∧
      b.queue = { buf := [], cap := q.toNat, closed := false } ∧
      (b.queue.cap : Int) = q ∧ b.receiver = .receiving ∧ b.drainer = .selecting) ∧
    (q < 0 ∨ (lim : Int) < q → w.step .handle = none) ∧
    (∀ b ∈ w.sessions, (b.queue.cap : Int) = q) ∧
    (∀ i e w1, w.step (.sess i e) = some w1 →
      w1.bs = w.bs ∧ ∀ j, j ≠ i → w1.sessions[j]? = w.sessions[j]?) ∧
    (∀ w1, w.step .closeExit = some w1 → w1.bs.exitChan.closed = true ∧
      ∀ (j : Nat) (b : broadcaster), w.sessions[j]? = some b →
        w1.sessions[j]? = some (exitFired b)) ∧
    (w.bs.exitChan.closed = true → ∀ (j : Nat) (b : broadcaster), w.sessions[j]? = some b →
      b.drainer = .selecting → ∃ w1 b1, w.step (.sess j (.drain .exit)) = some w1 ∧
        w1.sessions[j]? = some b1 ∧ b1.drainer = .returned .exitChan) := by
  obtain ⟨hg, _, hq⟩ := reachable_good lim q f es w hrun
  have hlim := reachable_limit lim q f es w hrun
  refine ⟨hq, ?_, ?_, ?_, ?_, ?_, ?_⟩
  · intro h0 h1
    have hn : ¬ (q < 0 ∨ (lim : Int) < q) := by omega
    refine ⟨{ w with sessions := w.sessions ++
        [{ queue := { buf := [], cap := q.toNat, closed := false }, receiver := .receiving,
           drainer := .selecting, recvCalls := 0, received := [], sends := [], acks := [],
           inserted := [], dequeued := [], sunk := [] }] }, _, ?_, rfl, rfl, rfl, ?_, rfl, rfl⟩
    · simp only [World.step, hlive, Handle, newBroadcaster, make, hq, hlim, hn]
      simp
    · simp [Int.toNat_of_nonneg h0]
  · intro h0
    simp only [World.step, hlive, Handle, newBroadcaster, make, hq, hlim, h0]
    simp
  · intro b hb
    rw [← hq]; exact (hg b hb).capacity
  · intro i e w1 h1
    simp only [World.step, hlive, Bool.false_eq_true, if_false] at h1
    split at h1
    · simp at h1
    · simp only [Option.map_eq_some'] at h1
      obtain ⟨b1, _, hw⟩ := h1
      subst hw
      refine ⟨rfl, ?_⟩
      intro j hj
      simp [List.getElem?_set_ne (Ne.symm hj)]
  · intro w1 h1
    simp only [World.step, hlive, Bool.false_eq_true, if_false] at h1
    split at h1
    · simp at h1
    · simp at h1; subst h1
      refine ⟨rfl, ?_⟩
      intro j b hb
      simp [hb]
  · intro hc j b hb hd
    have hmem := List.getElem?_mem hb
    have hstep : b.step w.bs (.drain .exit) = some { b with drainer := .returned .exitChan } := by
      rw [live_step w b hlive hmem]; simp [drainQueue, hd, hc]
    obtain ⟨w1, hw1, hb1, _⟩ := World.step_sess w j _ b _ hlive hb hstep
    exact ⟨w1, _, hw1, hb1, rfl⟩

theorem C10_witness :
    (World.new demoLimit 1 demoFilter).run scheduleC10 = some (World.after demoLimit 1 demoFilter scheduleC10) ∧
    (World.after demoLimit 1 demoFilter scheduleC10).sessions.length = 2 ∧
    (∀ b ∈ (World.after demoLimit 1 demoFilter scheduleC10).sessions, (b.queue.cap : Int) = 1) :=
  ⟨rfl, by decide,
    (C10_fresh_queue_shared_exitChan demoLimit 1 demoFilter scheduleC10
      (World.after demoLimit 1 demoFilter scheduleC10) rfl rfl).2.2.2.1⟩

end Broadcast
